import Mathlib

/-! ChVariablesNode: the 3-DOF point-mass variable block

Shallow embedding of `src/chrono/solver/ChVariablesNode.cpp`.

* A C++ `double` is a value of `Double`: an exact rational, or one of the
  IEEE special values `+inf`, `-inf`, `NaN`.  Finite arithmetic is exact
  (no rounding); the special values follow the IEEE rules.
* A vector (`ChVectorRef`, `ChVectorConstRef`) is a `List Double`.  The source
  does not guard the access `v(i)`, and the vector type is not part of the
  sources: inside the vector the access reads or writes the cell; outside it,
  what a build does is not modelled, and the outcome records that such an
  access was reached (`Fault.OutOfBounds`) together with the frame as it was
  just before.
* The vector operators have no error return.  `assert(x.size() == GetDOF())`
  is modelled for both ways of compiling it: with assertions, a failed
  `assert` aborts the call there (`Fault.AssertionFailed`; nothing is handed to
  the caller); under `NDEBUG` the macro expands to nothing, which is what the
  definitions with the suffix `_NDEBUG` are.  On vectors of length 3 the two
  agree.
* A member function is a function from the frame it runs in (the block and
  the vectors it is handed) to an `Outcome`: the frame reached and, when the
  call did not return, the reason.
* The block's own indices `offset`, `offset + 1`, `offset + 2` are naturals:
  the declaration of `offset` is in the base-class header, which is not part
  of the sources, and an assembled block has them inside the index range.
  The parameters `row_offset` and `col_offset` of `PasteMassInto` are
  `unsigned int` in the source, and the sums with them are reduced modulo
  `2^32`.
-/

namespace chrono

/-! ## Scalars -/

/-- A C++ double: an exact rational or an IEEE special value. -/
inductive Double where
  | fin (q : ℚ)
  | pinf
  | ninf
  | nan
  deriving DecidableEq, Repr

namespace Double

instance : OfNat Double n := ⟨fin (n : ℚ)⟩

/-- IEEE addition on exact values: `inf + (-inf)` and anything with NaN is NaN. -/
def add : Double → Double → Double
  | fin a, fin b => fin (a + b)
  | nan, _ => nan
  | _, nan => nan
  | pinf, ninf => nan
  | ninf, pinf => nan
  | pinf, _ => pinf
  | _, pinf => pinf
  | ninf, _ => ninf
  | _, ninf => ninf

/-- The infinity with the sign of `q`; `0 * inf` is NaN. -/
def signedInf (q : ℚ) (positive : Bool) : Double :=
  if q = 0 then nan
  else if (0 < q) = positive then pinf else ninf

/-- IEEE multiplication on exact values. -/
def mul : Double → Double → Double
  | fin a, fin b => fin (a * b)
  | nan, _ => nan
  | _, nan => nan
  | fin a, pinf => signedInf a true
  | fin a, ninf => signedInf a false
  | pinf, fin b => signedInf b true
  | ninf, fin b => signedInf b false
  | pinf, pinf => pinf
  | ninf, ninf => pinf
  | pinf, ninf => ninf
  | ninf, pinf => ninf

/-- IEEE division on exact values (no signed zero: `x / 0` takes the sign of `x`). -/
def div : Double → Double → Double
  | fin a, fin b => if b = 0 then signedInf a true else fin (a / b)
  | nan, _ => nan
  | _, nan => nan
  | fin _, pinf => fin 0
  | fin _, ninf => fin 0
  | pinf, fin b => if 0 ≤ b then pinf else ninf
  | ninf, fin b => if 0 ≤ b then ninf else pinf
  | pinf, pinf => nan
  | pinf, ninf => nan
  | ninf, pinf => nan
  | ninf, ninf => nan

instance : Add Double := ⟨add⟩
instance : Mul Double := ⟨mul⟩
instance : Div Double := ⟨div⟩

/-- The C++ comparison `a < b`: false as soon as one side is NaN. -/
def lt : Double → Double → Bool
  | fin a, fin b => decide (a < b)
  | nan, _ => false
  | _, nan => false
  | ninf, ninf => false
  | ninf, _ => true
  | _, ninf => false
  | pinf, _ => false
  | fin _, pinf => true

/-- The C++ test `std::isfinite`. -/
def isFinite : Double → Bool
  | fin _ => true
  | _ => false

/-- The C++ test `std::isnan`. -/
def isNaN : Double → Bool
  | nan => true
  | _ => false

end Double

/-! ## Faults and outcomes -/

/-- The ways a call can end without returning normally.
`DimensionMismatch` and `InvalidParameter` are the errors of the spec that are handed to the
caller; `AssertionFailed` is the abort of a failed `assert` in a build with assertions;
`OutOfBounds` records that an element access outside a vector was reached. -/
inductive Fault where
  | DimensionMismatch
  | AssertionFailed
  | OutOfBounds
  | InvalidParameter
  deriving DecidableEq, Repr

/-- The frame a call ends in, and the fault that stopped it (none: it returned). -/
structure Outcome (σ : Type) where
  state : σ
  fault : Option Fault

/-- A call that returns normally. -/
def Outcome.ok {σ : Type} (s : σ) : Outcome σ := ⟨s, none⟩

/-- A call stopped by a fault, in the frame reached so far. -/
def Outcome.fail {σ : Type} (s : σ) (e : Fault) : Outcome σ := ⟨s, some e⟩

/-- Sequencing of statements: a fault stops the rest of the body. -/
def Outcome.andThen {σ : Type} (o : Outcome σ) (k : σ → Outcome σ) : Outcome σ :=
  match o.fault with
  | none => k o.state
  | some _ => o

/-! ## The block -/

/-- The data of a `ChVariablesNode`: `offset` from the base class `ChVariables`,
`user_data` (a non-owned pointer, here an optional handle) and `mass`. -/
structure ChVariablesNode where
  offset : Nat
  user_data : Option Nat
  mass : Double
  deriving DecidableEq, Repr

/-- Modelled from the spec: `ChVariables::GetDOF` is declared in the base-class
header, which is not part of the sources.  The constructor passes 3 to the base
class, and the spec fixes `dofCount = 3` for the lifetime of a point-mass block. -/
def GetDOF (_b : ChVariablesNode) : Nat := 3

/-- The accessor `GetNodeMass` of the block. -/
def GetMass (b : ChVariablesNode) : Double := b.mass

/-- `ChVariablesNode::ChVariablesNode() : ChVariables(3), user_data(nullptr), mass(1)`.
The offset is not assigned by the constructor; it is a parameter here. -/
def ChVariablesNode.new (offset : Nat) : ChVariablesNode :=
  { offset := offset, user_data := none, mass := 1 }

/-- The frame of a vector operator: the block (`this`), the written vector and the read vector. -/
structure Frame where
  self : ChVariablesNode
  result : List Double
  vect : List Double
  deriving DecidableEq, Repr

/-- The statement `assert(cond)` in a build with assertions: when `cond` is false the
call is aborted there, before the statements that follow. -/
def assertDim (cond : Bool) (s : Frame) : Outcome Frame :=
  if cond then Outcome.ok s else Outcome.fail s Fault.AssertionFailed

/-- The statement `result(i) = k * vect(j)`. -/
def assignScaled (i : Nat) (k : Double) (j : Nat) (s : Frame) : Outcome Frame :=
  match s.vect[j]?, s.result[i]? with
  | some v, some _ => Outcome.ok { s with result := s.result.set i (k * v) }
  | _, _ => Outcome.fail s Fault.OutOfBounds

/-- The statement `result(i) += k * vect(j)`. -/
def incrScaled (i : Nat) (k : Double) (j : Nat) (s : Frame) : Outcome Frame :=
  match s.vect[j]?, s.result[i]? with
  | some v, some r => Outcome.ok { s with result := s.result.set i (r + k * v) }
  | _, _ => Outcome.fail s Fault.OutOfBounds

/-- The statement `result(i) += d`. -/
def incrBy (i : Nat) (d : Double) (s : Frame) : Outcome Frame :=
  match s.result[i]? with
  | some r => Outcome.ok { s with result := s.result.set i (r + d) }
  | none => Outcome.fail s Fault.OutOfBounds

/-- `ChVariablesNode::Compute_invMb_v`, compiled with assertions: `result = [invMb]*vect`. -/
def Compute_invMb_v (s : Frame) : Outcome Frame :=
  ((((assertDim (s.vect.length == GetDOF s.self) s).andThen
    fun s => assertDim (s.result.length == GetDOF s.self) s).andThen
    fun s => assignScaled 0 (1 / s.self.mass) 0 s).andThen
    fun s => assignScaled 1 (1 / s.self.mass) 1 s).andThen
    fun s => assignScaled 2 (1 / s.self.mass) 2 s

/-- `ChVariablesNode::Compute_inc_invMb_v`, compiled with assertions:
`result += [invMb]*vect`. -/
def Compute_inc_invMb_v (s : Frame) : Outcome Frame :=
  ((((assertDim (s.vect.length == GetDOF s.self) s).andThen
    fun s => assertDim (s.result.length == GetDOF s.self) s).andThen
    fun s => incrScaled 0 (1 / s.self.mass) 0 s).andThen
    fun s => incrScaled 1 (1 / s.self.mass) 1 s).andThen
    fun s => incrScaled 2 (1 / s.self.mass) 2 s

/-- `ChVariablesNode::Compute_inc_Mb_v`, compiled with assertions: `result += [Mb]*vect`. -/
def Compute_inc_Mb_v (s : Frame) : Outcome Frame :=
  ((((assertDim (s.result.length == GetDOF s.self) s).andThen
    fun s => assertDim (s.vect.length == GetDOF s.self) s).andThen
    fun s => incrScaled 0 s.self.mass 0 s).andThen
    fun s => incrScaled 1 s.self.mass 1 s).andThen
    fun s => incrScaled 2 s.self.mass 2 s

/-- `ChVariablesNode::Compute_invMb_v` compiled with `NDEBUG`: the two `assert` lines
expand to nothing, the three assignments remain. -/
def Compute_invMb_v_NDEBUG (s : Frame) : Outcome Frame :=
  ((assignScaled 0 (1 / s.self.mass) 0 s).andThen
    fun s => assignScaled 1 (1 / s.self.mass) 1 s).andThen
    fun s => assignScaled 2 (1 / s.self.mass) 2 s

/-- `ChVariablesNode::Compute_inc_invMb_v` compiled with `NDEBUG`. -/
def Compute_inc_invMb_v_NDEBUG (s : Frame) : Outcome Frame :=
  ((incrScaled 0 (1 / s.self.mass) 0 s).andThen
    fun s => incrScaled 1 (1 / s.self.mass) 1 s).andThen
    fun s => incrScaled 2 (1 / s.self.mass) 2 s

/-- `ChVariablesNode::Compute_inc_Mb_v` compiled with `NDEBUG`. -/
def Compute_inc_Mb_v_NDEBUG (s : Frame) : Outcome Frame :=
  ((incrScaled 0 s.self.mass 0 s).andThen
    fun s => incrScaled 1 s.self.mass 1 s).andThen
    fun s => incrScaled 2 s.self.mass 2 s

/-- The three local operators, each as compiled with assertions and as compiled with
`NDEBUG`. -/
def localOperators : List ((Frame → Outcome Frame) × (Frame → Outcome Frame)) :=
  [(Compute_invMb_v, Compute_invMb_v_NDEBUG),
   (Compute_inc_invMb_v, Compute_inc_invMb_v_NDEBUG),
   (Compute_inc_Mb_v, Compute_inc_Mb_v_NDEBUG)]

/-- `ChVariablesNode::MultiplyAndAdd`: no size check; the block's slice of
`result` is incremented by `(c_a * mass) * vect` on the same slice. -/
def MultiplyAndAdd (s : Frame) (c_a : Double) : Outcome Frame :=
  ((incrScaled s.self.offset (c_a * s.self.mass) s.self.offset s).andThen
    fun s => incrScaled (s.self.offset + 1) (c_a * s.self.mass) (s.self.offset + 1) s).andThen
    fun s => incrScaled (s.self.offset + 2) (c_a * s.self.mass) (s.self.offset + 2) s

/-- `ChVariablesNode::DiagonalAdd`: the block's slice of `result` is incremented by `c_a * mass`. -/
def DiagonalAdd (s : Frame) (c_a : Double) : Outcome Frame :=
  ((incrBy s.self.offset (c_a * s.self.mass) s).andThen
    fun s => incrBy (s.self.offset + 1) (c_a * s.self.mass) s).andThen
    fun s => incrBy (s.self.offset + 2) (c_a * s.self.mass) s

/-! ## The sparse sink -/

/-- One call `storage.SetElement(row, col, value)`. -/
structure SetElementCall where
  row : Nat
  col : Nat
  value : Double
  deriving DecidableEq, Repr

/-- The sparse sink, seen from the block: the calls made on it, oldest first. -/
abbrev ChSparseMatrix := List SetElementCall

/-- The call `storage.SetElement(row, col, value)`. -/
def SetElement (storage : ChSparseMatrix) (row col : Nat) (value : Double) : ChSparseMatrix :=
  storage ++ [⟨row, col, value⟩]

/-- The number of values of an `unsigned int`. -/
def UINT_RANGE : Nat := 2 ^ 32

/-- The block's own indices `offset`, `offset + 1`, `offset + 2` are values of
`unsigned int`. -/
def sliceFits (offset : Nat) : Bool := offset + 2 < UINT_RANGE

/-- The sum `offset + param + i` of `PasteMassInto`, where `param` is one of the
`unsigned int` parameters `row_offset`, `col_offset` and `i` is 0, 1 or 2: the machine
reduces it modulo `2^32`.  For a block whose own indices are not values of `unsigned int`
(no assembled system holds one, and `MultiplyAndAdd` and `DiagonalAdd` use `offset + i` as
it stands) the sum is used as it stands here too. -/
def pasteIndex (offset param i : Nat) : Nat :=
  if sliceFits offset then (offset + param + i) % UINT_RANGE else offset + param + i

/-- `ChVariablesNode::PasteMassInto`, with `unsigned int row_offset, col_offset`. -/
def PasteMassInto (b : ChVariablesNode) (storage : ChSparseMatrix)
    (row_offset col_offset : Nat) (c_a : Double) : ChSparseMatrix :=
  let scaledmass := c_a * b.mass
  let storage := SetElement storage (pasteIndex b.offset row_offset 0)
    (pasteIndex b.offset col_offset 0) scaledmass
  let storage := SetElement storage (pasteIndex b.offset row_offset 1)
    (pasteIndex b.offset col_offset 1) scaledmass
  SetElement storage (pasteIndex b.offset row_offset 2) (pasteIndex b.offset col_offset 2)
    scaledmass

/-! ## Mass assignment and serialization -/

/-- Modelled from the spec: `SetNodeMass` is defined in the header
`ChVariablesNode.h`, which is not part of the sources.  Spec 4.2: it "validates
`m` is finite and `> 0`; fails with InvalidParameter otherwise; on success stores
`mass = m`"; spec 7: a rejected assignment leaves the previous mass in place. -/
def SetNodeMass (b : ChVariablesNode) (m : Double) : Outcome ChVariablesNode :=
  if m.isFinite && Double.lt 0 m then Outcome.ok { b with mass := m }
  else Outcome.fail b Fault.InvalidParameter

/-- Modelled from the spec: the archive classes are not part of the sources.
The record of one block holds the class version and the single named value `mass`
(spec 6: "one versioned record per block containing exactly one scalar field");
the base class adds no field to it. -/
structure ArchiveRecord where
  version : Nat
  mass : Double
  deriving DecidableEq, Repr

/-- The class version written by `VersionWrite<ChVariablesNode>()`. -/
def classVersion : Nat := 0

/-- `ChVariablesNode::ArchiveOut`: version, parent class, then `mass`. -/
def ArchiveOut (b : ChVariablesNode) : ArchiveRecord :=
  { version := classVersion, mass := b.mass }

/-- `ChVariablesNode::ArchiveIn`: the version is read and dropped, the parent class
reads nothing of its own, the record's value is streamed into the member `mass`,
and then `SetNodeMass(mass)` is called on the member just written. -/
def ArchiveIn (b : ChVariablesNode) (archive_in : ArchiveRecord) : Outcome ChVariablesNode :=
  let b := { b with mass := archive_in.mass }
  SetNodeMass b b.mass

/-! ## Copy assignment -/

/-- Modelled from the spec: `ChVariables::operator=` belongs to the base class, whose
file is not part of the sources.  Spec 4.2 has the offset treated "as ordinary copyable
state", so the base-class part of `other`, the offset, is copied. -/
def ChVariables_assign (this other : ChVariablesNode) : ChVariablesNode :=
  { this with offset := other.offset }

/-- The body of `ChVariablesNode::operator=` past the identity test: the parent class
data are copied, then `user_data`, then `mass`. -/
def copyFrom (this other : ChVariablesNode) : ChVariablesNode :=
  let this := ChVariables_assign this other
  let this := { this with user_data := other.user_data }
  { this with mass := other.mass }

/-- The blocks alive, by address. -/
abbrev Objects := List ChVariablesNode

/-- `ChVariablesNode::operator=`, on the addresses `this` and `other` of two live blocks:
`if (&other == this) return *this;`, then the copy.  Only the object at `this` is written. -/
def operatorAssign (objects : Objects) (this other : Nat) : Objects :=
  if other = this then objects
  else
    match objects[this]?, objects[other]? with
    | some t, some o => objects.set this (copyFrom t o)
    | _, _ => objects

/-- A state-changing call on one block: `SetNodeMass(m)`, `*this = other` for another
block `other`, `*this = *this`, or `ArchiveIn` of a record. -/
inductive MassOp where
  | setNodeMass (m : Double)
  | assignFrom (other : ChVariablesNode)
  | assignSelf
  | archiveIn (r : ArchiveRecord)
  deriving DecidableEq, Repr

/-- The block after one call, whether the call returned or stopped with a fault. -/
def applyOp (b : ChVariablesNode) : MassOp → ChVariablesNode
  | MassOp.setNodeMass m => (SetNodeMass b m).state
  | MassOp.assignFrom other => (operatorAssign [b, other] 0 1).headD b
  | MassOp.assignSelf => (operatorAssign [b] 0 0).headD b
  | MassOp.archiveIn r => (ArchiveIn b r).state

/-- The block after a sequence of calls, oldest first. -/
def runOps (b : ChVariablesNode) (ops : List MassOp) : ChVariablesNode :=
  ops.foldl applyOp b

/-- The calls that hand the block a mass `> 0` when they carry one: an assignment from a
block of mass `> 0`, an `ArchiveIn` of a record of mass `> 0`; `SetNodeMass` with any
argument and self-assignment always qualify. -/
def carriesPositiveMass : MassOp → Bool
  | MassOp.setNodeMass _ => true
  | MassOp.assignFrom other => Double.lt 0 other.mass
  | MassOp.assignSelf => true
  | MassOp.archiveIn r => Double.lt 0 r.mass

/-! ## The matrix held by the sparse sink -/

/-- Whether the sink holds an entry at `(i, j)`: some `SetElement(i, j, _)` was called. -/
def sinkStored (A : ChSparseMatrix) (i j : Nat) : Bool :=
  A.any fun e => e.row == i && e.col == j

/-- Entry `(i, j)` of the matrix in the sink: the value of the last `SetElement(i, j, _)`
call, and zero where no entry is stored. -/
def sinkEntry (A : ChSparseMatrix) (i j : Nat) : Double :=
  A.foldl (fun acc e => if e.row == i && e.col == j then e.value else acc) 0

/-- Row `i` of the product of the `n`-column matrix in the sink with `vect`: the sum, over
the columns `j < n` where an entry is stored, of `entry(i, j) * vect[j]`, from zero. -/
def sinkRowTimes (A : ChSparseMatrix) (n : Nat) (vect : List Double) (i : Nat) : Double :=
  (List.range n).foldl (fun acc j =>
    if sinkStored A i j then
      match vect[j]? with
      | some v => acc + sinkEntry A i j * v
      | none => acc
    else acc) 0

/-- The matrix-vector product `A * vect` of the `n`-by-`n` matrix in the sink. -/
def sinkMulVec (A : ChSparseMatrix) (n : Nat) (vect : List Double) : List Double :=
  (List.range n).map (sinkRowTimes A n vect)

/-- The diagonal of the `n`-by-`n` matrix in the sink. -/
def sinkDiagonal (A : ChSparseMatrix) (n : Nat) : List Double :=
  (List.range n).map fun i => sinkEntry A i i

/-! ## Concrete inputs -/

/-- The scenario of the spec: mass 2, offset 10, vectors of size 20, `vect[10..12] = [1,2,3]`. -/
def scenarioBlock : ChVariablesNode := { offset := 10, user_data := none, mass := 2 }

/-- The frame of the scenario: `result` all zero, `vect` zero except `[1,2,3]` at 10..12. -/
def scenarioFrame : Frame :=
  { self := scenarioBlock
    result := List.replicate 20 0
    vect := List.replicate 10 0 ++ [1, 2, 3] ++ List.replicate 7 0 }

/-- The scenario's block with global vectors of size 5, shorter than `offset + 3`. -/
def shortFrame : Frame :=
  { self := scenarioBlock, result := List.replicate 5 0, vect := List.replicate 5 0 }

/-- The scenario's block and `vect`, with a `result` of size 11 that holds index 10 only. -/
def truncatedFrame : Frame :=
  { self := scenarioBlock, result := List.replicate 11 0, vect := scenarioFrame.vect }

/-- A block of mass 5/2 at offset 4, with a handle attached. -/
def heavyBlock : ChVariablesNode := { offset := 4, user_data := some 7, mass := Double.fin (5 / 2) }

/-- The scenario's block on vectors of length 5, longer than `GetDOF() = 3`. -/
def longFrame : Frame :=
  { self := scenarioBlock, result := [7, 8, 9, 10, 11], vect := [1, 2, 3, 4, 5] }

/-- A block of mass 1 at offset 1. -/
def lowBlock : ChVariablesNode := { offset := 1, user_data := none, mass := 1 }

/-- The largest `unsigned int`. -/
def UINT_MAX : Nat := UINT_RANGE - 1

/-- A record whose mass field is zero. -/
def zeroMassRecord : ArchiveRecord := { version := classVersion, mass := 0 }

/-- Two global vectors agree on the slice `[o, o+3)`: index by index they hold the same
value there, or both end before the index. -/
def AgreeOnSlice (o : Nat) (x y : List Double) : Prop :=
  ∀ i, i < 3 → x[o + i]? = y[o + i]?

instance (o : Nat) (x y : List Double) : Decidable (AgreeOnSlice o x y) := by
  unfold AgreeOnSlice
  infer_instance

/-- The scenario's block on other global vectors: the same values on `[10, 13)` as in the
scenario, other values and another length outside. -/
def variantFrame : Frame :=
  { self := scenarioBlock
    result := List.replicate 10 5 ++ [0, 0, 0] ++ List.replicate 7 9
    vect := List.replicate 10 4 ++ [1, 2, 3] ++ List.replicate 2 8 }

/-- A sequence of calls, each carrying a mass `> 0` when it carries one; the two
`SetNodeMass` calls in it are rejected. -/
def sampleOps : List MassOp :=
  [MassOp.assignFrom heavyBlock, MassOp.setNodeMass 0, MassOp.assignSelf,
    MassOp.archiveIn (ArchiveOut heavyBlock), MassOp.setNodeMass Double.nan]

/-! ## Basic facts about the embedding -/

namespace Double

@[simp] theorem ofNat_eq_fin (n : Nat) : (OfNat.ofNat n : Double) = fin (n : ℚ) := rfl

@[simp] theorem fin_add_fin (a b : ℚ) : fin a + fin b = fin (a + b) := rfl

@[simp] theorem fin_mul_fin (a b : ℚ) : fin a * fin b = fin (a * b) := rfl

theorem fin_div_fin (a b : ℚ) (hb : b ≠ 0) : fin a / fin b = fin (a / b) := by
  show div (fin a) (fin b) = fin (a / b)
  simp [div, hb]

theorem fin_mul_pinf (a : ℚ) (ha : 0 < a) : fin a * pinf = pinf := by
  show mul (fin a) pinf = pinf
  simp [mul, signedInf, ha, ha.ne']

theorem fin_mul_ninf (a : ℚ) (ha : 0 < a) : fin a * ninf = ninf := by
  show mul (fin a) ninf = ninf
  simp [mul, signedInf, ha, ha.ne']

@[simp] theorem mul_nan (x : Double) : x * nan = nan := by
  cases x <;> rfl

@[simp] theorem add_nan (x : Double) : x + nan = nan := by
  cases x <;> rfl

/-- Multiplying by a finite positive mass undoes multiplying by its inverse, on every double. -/
theorem mass_mul_inv_mul (m : ℚ) (hm : 0 < m) (x : Double) :
    (0 : Double) + fin m * (1 / fin m * x) = x := by
  have hne : m ≠ 0 := hm.ne'
  have hinv : (0 : ℚ) < 1 / m := one_div_pos.mpr hm
  have h1 : (1 : Double) / fin m = fin (1 / m) := by
    simpa using fin_div_fin 1 m hne
  rw [h1]
  cases x with
  | fin q =>
    simp only [ofNat_eq_fin, fin_mul_fin, fin_add_fin]
    congr 1
    field_simp
  | pinf => rw [fin_mul_pinf _ hinv, fin_mul_pinf _ hm]; rfl
  | ninf => rw [fin_mul_ninf _ hinv, fin_mul_ninf _ hm]; rfl
  | nan => simp

end Double

@[simp] theorem Outcome.ok_andThen {σ : Type} (s : σ) (k : σ → Outcome σ) :
    (Outcome.ok s).andThen k = k s := rfl

@[simp] theorem Outcome.fail_andThen {σ : Type} (s : σ) (e : Fault) (k : σ → Outcome σ) :
    (Outcome.fail s e).andThen k = Outcome.fail s e := rfl

@[simp] theorem Outcome.ok_fault {σ : Type} (s : σ) : (Outcome.ok s).fault = none := rfl

@[simp] theorem Outcome.ok_state {σ : Type} (s : σ) : (Outcome.ok s).state = s := rfl

@[simp] theorem Outcome.fail_fault {σ : Type} (s : σ) (e : Fault) :
    (Outcome.fail s e).fault = some e := rfl

@[simp] theorem Outcome.fail_state {σ : Type} (s : σ) (e : Fault) :
    (Outcome.fail s e).state = s := rfl

/-- An in-range `result(i) += k * vect(j)` returns, with the one component updated. -/
theorem incrScaled_of_some (i : Nat) (k : Double) (j : Nat) (s : Frame) (r v : Double)
    (hr : s.result[i]? = some r) (hv : s.vect[j]? = some v) :
    incrScaled i k j s = Outcome.ok { s with result := s.result.set i (r + k * v) } := by
  simp [incrScaled, hr, hv]

/-- An in-range `result(i) += d` returns, with the one component updated. -/
theorem incrBy_of_some (i : Nat) (d : Double) (s : Frame) (r : Double)
    (hr : s.result[i]? = some r) :
    incrBy i d s = Outcome.ok { s with result := s.result.set i (r + d) } := by
  simp [incrBy, hr]

/-- Every index below the length holds a value. -/
theorem exists_getElem?_of_lt (l : List Double) (i : Nat) (h : i < l.length) :
    ∃ x, l[i]? = some x :=
  ⟨l[i], List.getElem?_eq_getElem h⟩

/-- Closed form of `MultiplyAndAdd` when both vectors hold the block's slice. -/
theorem MultiplyAndAdd_closed (s : Frame) (c_a r0 r1 r2 v0 v1 v2 : Double)
    (hr0 : s.result[s.self.offset]? = some r0) (hr1 : s.result[s.self.offset + 1]? = some r1)
    (hr2 : s.result[s.self.offset + 2]? = some r2)
    (hv0 : s.vect[s.self.offset]? = some v0) (hv1 : s.vect[s.self.offset + 1]? = some v1)
    (hv2 : s.vect[s.self.offset + 2]? = some v2) :
    MultiplyAndAdd s c_a = Outcome.ok (Frame.mk s.self
      (List.set (List.set (List.set s.result s.self.offset (r0 + c_a * s.self.mass * v0))
        (s.self.offset + 1) (r1 + c_a * s.self.mass * v1))
        (s.self.offset + 2) (r2 + c_a * s.self.mass * v2)) s.vect) := by
  unfold MultiplyAndAdd
  rw [incrScaled_of_some _ _ _ s r0 v0 hr0 hv0, Outcome.ok_andThen]
  dsimp only
  rw [incrScaled_of_some _ _ _ (Frame.mk s.self (s.result.set s.self.offset _) s.vect) r1 v1
    (by simpa [List.getElem?_set] using hr1) hv1, Outcome.ok_andThen]
  dsimp only
  rw [incrScaled_of_some _ _ _ (Frame.mk s.self ((s.result.set s.self.offset _).set _ _) s.vect)
    r2 v2 (by simpa [List.getElem?_set] using hr2) hv2]

/-- The six values of the block's slice exist when both vectors are long enough. -/
theorem slice_values (s : Frame) (hr : s.self.offset + 3 ≤ s.result.length)
    (hv : s.self.offset + 3 ≤ s.vect.length) :
    ∃ r0 r1 r2 v0 v1 v2, s.result[s.self.offset]? = some r0 ∧
      s.result[s.self.offset + 1]? = some r1 ∧ s.result[s.self.offset + 2]? = some r2 ∧
      s.vect[s.self.offset]? = some v0 ∧ s.vect[s.self.offset + 1]? = some v1 ∧
      s.vect[s.self.offset + 2]? = some v2 := by
  obtain ⟨r0, h0⟩ := exists_getElem?_of_lt s.result s.self.offset (by omega)
  obtain ⟨r1, h1⟩ := exists_getElem?_of_lt s.result (s.self.offset + 1) (by omega)
  obtain ⟨r2, h2⟩ := exists_getElem?_of_lt s.result (s.self.offset + 2) (by omega)
  obtain ⟨v0, g0⟩ := exists_getElem?_of_lt s.vect s.self.offset (by omega)
  obtain ⟨v1, g1⟩ := exists_getElem?_of_lt s.vect (s.self.offset + 1) (by omega)
  obtain ⟨v2, g2⟩ := exists_getElem?_of_lt s.vect (s.self.offset + 2) (by omega)
  exact ⟨r0, r1, r2, v0, v1, v2, h0, h1, h2, g0, g1, g2⟩

/-! ## C1: MultiplyAndAdd writes only the block's slice -/

/-- C1: when `result` and `vect` contain `[offset, offset+3)`, `MultiplyAndAdd` returns,
leaves every index of `result` outside `[offset, offset+3)` unchanged (and the length of
`result` too), and leaves `vect` and the block unchanged. -/
theorem MultiplyAndAdd_frame (s : Frame) (c_a : Double)
    (hr : s.self.offset + 3 ≤ s.result.length) (hv : s.self.offset + 3 ≤ s.vect.length) :
    (MultiplyAndAdd s c_a).fault = none ∧
    (MultiplyAndAdd s c_a).state.self = s.self ∧
    (MultiplyAndAdd s c_a).state.vect = s.vect ∧
    (MultiplyAndAdd s c_a).state.result.length = s.result.length ∧
    ∀ i, (i < s.self.offset ∨ s.self.offset + 3 ≤ i) →
      (MultiplyAndAdd s c_a).state.result[i]? = s.result[i]? := by
  obtain ⟨r0, r1, r2, v0, v1, v2, h0, h1, h2, g0, g1, g2⟩ := slice_values s hr hv
  rw [MultiplyAndAdd_closed s c_a r0 r1 r2 v0 v1 v2 h0 h1 h2 g0 g1 g2]
  refine ⟨rfl, rfl, rfl, by simp, ?_⟩
  intro i hi
  have e0 : s.self.offset ≠ i := by omega
  have e1 : s.self.offset + 1 ≠ i := by omega
  have e2 : s.self.offset + 2 ≠ i := by omega
  simp [List.getElem?_set, e0, e1, e2]

/-- C1 at the scenario of the spec (mass 2, offset 10, size 20, scale 3). -/
theorem MultiplyAndAdd_frame_witness :
    (MultiplyAndAdd scenarioFrame 3).fault = none ∧
    (MultiplyAndAdd scenarioFrame 3).state.self = scenarioFrame.self ∧
    (MultiplyAndAdd scenarioFrame 3).state.vect = scenarioFrame.vect ∧
    (MultiplyAndAdd scenarioFrame 3).state.result.length = scenarioFrame.result.length ∧
    ∀ i, (i < 10 ∨ 10 + 3 ≤ i) →
      (MultiplyAndAdd scenarioFrame 3).state.result[i]? = scenarioFrame.result[i]? :=
  MultiplyAndAdd_frame scenarioFrame 3 (by decide) (by decide)

/-! ## C2: the value MultiplyAndAdd writes -/

/-- C2: when `result` and `vect` contain `[o, o+3)`, `MultiplyAndAdd` returns and for
`i = 0, 1, 2` the new `result[o+i]` is the old `result[o+i]` plus `c * m * vect[o+i]`. -/
theorem MultiplyAndAdd_slice (s : Frame) (c_a : Double)
    (hr : s.self.offset + 3 ≤ s.result.length) (hv : s.self.offset + 3 ≤ s.vect.length) :
    (MultiplyAndAdd s c_a).fault = none ∧
    ∀ i, i < 3 → ∀ r v, s.result[s.self.offset + i]? = some r →
      s.vect[s.self.offset + i]? = some v →
      (MultiplyAndAdd s c_a).state.result[s.self.offset + i]? =
        some (r + c_a * s.self.mass * v) := by
  obtain ⟨r0, r1, r2, v0, v1, v2, h0, h1, h2, g0, g1, g2⟩ := slice_values s hr hv
  rw [MultiplyAndAdd_closed s c_a r0 r1 r2 v0 v1 v2 h0 h1 h2 g0 g1 g2]
  refine ⟨rfl, ?_⟩
  intro i hi r v hri hvi
  have hlt0 : s.self.offset < s.result.length := by omega
  have hlt1 : s.self.offset + 1 < s.result.length := by omega
  have hlt2 : s.self.offset + 2 < s.result.length := by omega
  have hcases : i = 0 ∨ i = 1 ∨ i = 2 := by omega
  rcases hcases with rfl | rfl | rfl
  · rw [Nat.add_zero] at hri hvi
    rw [h0] at hri
    rw [g0] at hvi
    cases hri
    cases hvi
    simp [List.getElem?_set, hlt0]
  · rw [h1] at hri
    rw [g1] at hvi
    cases hri
    cases hvi
    simp [List.getElem?_set, hlt1]
  · rw [h2] at hri
    rw [g2] at hvi
    cases hri
    cases hvi
    simp [List.getElem?_set, hlt2]

/-- C2 at the scenario of the spec: `result[10..12]` becomes `[6, 12, 18]`. -/
theorem MultiplyAndAdd_slice_witness :
    (MultiplyAndAdd scenarioFrame 3).fault = none ∧
    (MultiplyAndAdd scenarioFrame 3).state.result[10]? = some 6 ∧
    (MultiplyAndAdd scenarioFrame 3).state.result[11]? = some 12 ∧
    (MultiplyAndAdd scenarioFrame 3).state.result[12]? = some 18 := by
  have h := MultiplyAndAdd_slice scenarioFrame 3 (by decide) (by decide)
  have e0 : (0 : Double) + 3 * scenarioFrame.self.mass * 1 = 6 := by
    simp [scenarioFrame, scenarioBlock]
    norm_num
  have e1 : (0 : Double) + 3 * scenarioFrame.self.mass * 2 = 12 := by
    simp [scenarioFrame, scenarioBlock]
    norm_num
  have e2 : (0 : Double) + 3 * scenarioFrame.self.mass * 3 = 18 := by
    simp [scenarioFrame, scenarioBlock]
    norm_num
  refine ⟨h.1, ?_, ?_, ?_⟩
  · exact (h.2 0 (by decide) 0 1 rfl rfl).trans (congrArg some e0)
  · exact (h.2 1 (by decide) 0 2 rfl rfl).trans (congrArg some e1)
  · exact (h.2 2 (by decide) 0 3 rfl rfl).trans (congrArg some e2)

/-! ## C3: mass times inverse mass is the identity -/

/-- Closed form of `Compute_invMb_v` on vectors of length 3. -/
theorem Compute_invMb_v_closed (b : ChVariablesNode) (r0 r1 r2 v0 v1 v2 : Double) :
    Compute_invMb_v ⟨b, [r0, r1, r2], [v0, v1, v2]⟩ =
      Outcome.ok ⟨b, [1 / b.mass * v0, 1 / b.mass * v1, 1 / b.mass * v2], [v0, v1, v2]⟩ := rfl

/-- Closed form of `Compute_inc_invMb_v` on vectors of length 3. -/
theorem Compute_inc_invMb_v_closed (b : ChVariablesNode) (r0 r1 r2 v0 v1 v2 : Double) :
    Compute_inc_invMb_v ⟨b, [r0, r1, r2], [v0, v1, v2]⟩ =
      Outcome.ok ⟨b, [r0 + 1 / b.mass * v0, r1 + 1 / b.mass * v1, r2 + 1 / b.mass * v2],
        [v0, v1, v2]⟩ := rfl

/-- Closed form of `Compute_inc_Mb_v` on vectors of length 3. -/
theorem Compute_inc_Mb_v_closed (b : ChVariablesNode) (r0 r1 r2 v0 v1 v2 : Double) :
    Compute_inc_Mb_v ⟨b, [r0, r1, r2], [v0, v1, v2]⟩ =
      Outcome.ok ⟨b, [r0 + b.mass * v0, r1 + b.mass * v1, r2 + b.mass * v2], [v0, v1, v2]⟩ := rfl

/-- C3: for a finite mass `m > 0` and every `v` of length 3, `Compute_invMb_v(w, v)` returns,
and `Compute_inc_Mb_v(r, w)` on the zero vector `r` of length 3 then returns with `r = v`. -/
theorem mass_invMass_roundtrip (b : ChVariablesNode) (m : ℚ) (hm : 0 < m)
    (hb : b.mass = Double.fin m) (v w : List Double) (hv : v.length = 3) (hw : w.length = 3) :
    (Compute_invMb_v ⟨b, w, v⟩).fault = none ∧
    (Compute_inc_Mb_v ⟨b, [0, 0, 0], (Compute_invMb_v ⟨b, w, v⟩).state.result⟩).fault = none ∧
    (Compute_inc_Mb_v ⟨b, [0, 0, 0], (Compute_invMb_v ⟨b, w, v⟩).state.result⟩).state.result
      = v := by
  obtain ⟨v0, v1, v2, rfl⟩ := List.length_eq_three.mp hv
  obtain ⟨w0, w1, w2, rfl⟩ := List.length_eq_three.mp hw
  rw [Compute_invMb_v_closed, Outcome.ok_state, Outcome.ok_fault]
  dsimp only
  rw [Compute_inc_Mb_v_closed, Outcome.ok_state, Outcome.ok_fault]
  dsimp only
  rw [hb, Double.mass_mul_inv_mul m hm, Double.mass_mul_inv_mul m hm,
    Double.mass_mul_inv_mul m hm]
  exact ⟨rfl, rfl, rfl⟩

/-- C3 at mass 5/2 and `v = [1, 2, 3]`. -/
theorem mass_invMass_roundtrip_witness :
    (Compute_invMb_v ⟨heavyBlock, [0, 0, 0], [1, 2, 3]⟩).fault = none ∧
    (Compute_inc_Mb_v ⟨heavyBlock, [0, 0, 0],
      (Compute_invMb_v ⟨heavyBlock, [0, 0, 0], [1, 2, 3]⟩).state.result⟩).fault = none ∧
    (Compute_inc_Mb_v ⟨heavyBlock, [0, 0, 0],
      (Compute_invMb_v ⟨heavyBlock, [0, 0, 0], [1, 2, 3]⟩).state.result⟩).state.result
      = [1, 2, 3] :=
  mass_invMass_roundtrip heavyBlock (5 / 2) (by norm_num) rfl [1, 2, 3] [0, 0, 0] rfl rfl

/-! ## C4: the entries pasted into the sparse sink -/

/-- Without wrap-around the reduced sum is the sum. -/
theorem pasteIndex_of_lt (o p i : Nat) (hi : i ≤ 2) (h : o + p + 2 < 2 ^ 32) :
    pasteIndex o p i = o + p + i := by
  have hfit : sliceFits o = true := by
    simp only [sliceFits, UINT_RANGE, decide_eq_true_eq]
    omega
  unfold pasteIndex
  rw [if_pos hfit]
  apply Nat.mod_eq_of_lt
  simp only [UINT_RANGE]
  omega

/-- With the parameter zero the reduced sum is the block's own index. -/
theorem pasteIndex_zero (o i : Nat) (hi : i ≤ 2) : pasteIndex o 0 i = o + i := by
  unfold pasteIndex
  split_ifs with h
  · simp only [sliceFits, UINT_RANGE, decide_eq_true_eq] at h
    rw [Nat.add_zero]
    apply Nat.mod_eq_of_lt
    simp only [UINT_RANGE]
    omega
  · rw [Nat.add_zero]

/-- The calls of `PasteMassInto`, one after the other. -/
theorem PasteMassInto_eq (b : ChVariablesNode) (storage : ChSparseMatrix) (r q : Nat)
    (c : Double) :
    PasteMassInto b storage r q c = storage ++
      [⟨pasteIndex b.offset r 0, pasteIndex b.offset q 0, c * b.mass⟩,
       ⟨pasteIndex b.offset r 1, pasteIndex b.offset q 1, c * b.mass⟩,
       ⟨pasteIndex b.offset r 2, pasteIndex b.offset q 2, c * b.mass⟩] := by
  simp [PasteMassInto, SetElement]

/-- C4, as amended: for every block with mass `m` and offset `o` and all `c`, `r`, `q` with
`o + r + 2 < 2^32` and `o + q + 2 < 2^32` (the sums with the `unsigned int` parameters do not
wrap around), `PasteMassInto(sink, r, q, c)` makes exactly three `SetElement` calls on the
sink, `(o+r+i, o+q+i, c*m)` for `i = 0, 1, 2` in that order, after the calls already made;
each call has the same local index on its row and on its column. -/
theorem PasteMassInto_calls (b : ChVariablesNode) (storage : ChSparseMatrix)
    (r q : Nat) (c : Double) (hr : b.offset + r + 2 < 2 ^ 32) (hq : b.offset + q + 2 < 2 ^ 32) :
    PasteMassInto b storage r q c = storage ++
      [⟨b.offset + r + 0, b.offset + q + 0, c * b.mass⟩,
       ⟨b.offset + r + 1, b.offset + q + 1, c * b.mass⟩,
       ⟨b.offset + r + 2, b.offset + q + 2, c * b.mass⟩] ∧
    ∀ e ∈ (PasteMassInto b [] r q c), ∃ i, i < 3 ∧
      e = ⟨b.offset + r + i, b.offset + q + i, c * b.mass⟩ := by
  have e : ∀ st : ChSparseMatrix, PasteMassInto b st r q c = st ++
      [⟨b.offset + r + 0, b.offset + q + 0, c * b.mass⟩,
       ⟨b.offset + r + 1, b.offset + q + 1, c * b.mass⟩,
       ⟨b.offset + r + 2, b.offset + q + 2, c * b.mass⟩] := by
    intro st
    rw [PasteMassInto_eq, pasteIndex_of_lt _ r 0 (by decide) hr,
      pasteIndex_of_lt _ r 1 (by decide) hr, pasteIndex_of_lt _ r 2 (by decide) hr,
      pasteIndex_of_lt _ q 0 (by decide) hq, pasteIndex_of_lt _ q 1 (by decide) hq,
      pasteIndex_of_lt _ q 2 (by decide) hq]
  refine ⟨e storage, ?_⟩
  intro x hx
  rw [e []] at hx
  simp only [List.nil_append, List.mem_cons, List.mem_singleton, List.not_mem_nil,
    or_false] at hx
  rcases hx with rfl | rfl | rfl
  · exact ⟨0, by decide, rfl⟩
  · exact ⟨1, by decide, rfl⟩
  · exact ⟨2, by decide, rfl⟩

/-- C4, as amended, at the scenario's block (offset 10) with `r = 1`, `q = 2`, `c = 3`:
rows 11, 12, 13 and columns 12, 13, 14. -/
theorem PasteMassInto_calls_witness :
    PasteMassInto scenarioBlock [] 1 2 3 =
      [⟨11, 12, 3 * scenarioBlock.mass⟩, ⟨12, 13, 3 * scenarioBlock.mass⟩,
       ⟨13, 14, 3 * scenarioBlock.mass⟩] :=
  (PasteMassInto_calls scenarioBlock [] 1 2 3 (by decide) (by decide)).1

/-- C4 as stated fails: for the block at offset 1 and `r` the largest `unsigned int`, the sum
`offset + r + i` wraps around and the three calls go to the rows 0, 1, 2, not to the rows
`2^32`, `2^32 + 1`, `2^32 + 2` that `o + r + i` names. -/
theorem PasteMassInto_wraps :
    lowBlock.offset + UINT_MAX + 0 = 2 ^ 32 ∧
    (PasteMassInto lowBlock [] UINT_MAX 0 1).map (fun e => e.row) = [0, 1, 2] ∧
    (PasteMassInto lowBlock [] UINT_MAX 0 1).map (fun e => e.row) ≠
      [lowBlock.offset + UINT_MAX + 0, lowBlock.offset + UINT_MAX + 1,
        lowBlock.offset + UINT_MAX + 2] := by
  have hrows : (PasteMassInto lowBlock [] UINT_MAX 0 1).map (fun e => e.row) = [0, 1, 2] := by
    rw [PasteMassInto_eq]
    decide
  refine ⟨by decide, hrows, ?_⟩
  rw [hrows]
  decide

/-! ## C5: deserializing an invalid mass -/

/-- A mass that `SetNodeMass` accepts is stored, and the call returns. -/
theorem SetNodeMass_of_valid (b : ChVariablesNode) (m : Double)
    (h : (m.isFinite && Double.lt 0 m) = true) :
    SetNodeMass b m = Outcome.ok { b with mass := m } := by
  unfold SetNodeMass
  rw [if_pos h]

/-- A mass that `SetNodeMass` rejects leaves the block as it was handed over. -/
theorem SetNodeMass_of_invalid (b : ChVariablesNode) (m : Double)
    (h : (m.isFinite && Double.lt 0 m) = false) :
    SetNodeMass b m = Outcome.fail b Fault.InvalidParameter := by
  unfold SetNodeMass
  rw [if_neg (by rw [h]; exact Bool.false_ne_true)]

/-- Closed form of `ArchiveIn` on a record that `SetNodeMass` rejects: the member `mass`
already holds the record's value when the call stops. -/
theorem ArchiveIn_of_invalid (b : ChVariablesNode) (r : ArchiveRecord)
    (h : (r.mass.isFinite && Double.lt 0 r.mass) = false) :
    ArchiveIn b r = Outcome.fail { b with mass := r.mass } Fault.InvalidParameter := by
  unfold ArchiveIn
  dsimp only
  rw [SetNodeMass_of_invalid _ _ h]

/-- The record of mass zero is one that `SetNodeMass` rejects. -/
theorem zeroMassRecord_invalid :
    (zeroMassRecord.mass.isFinite && Double.lt 0 zeroMassRecord.mass) = false := by
  simp [zeroMassRecord, Double.lt]

/-- C5, as amended: for every block and every record whose mass is non-finite or not
positive, `ArchiveIn` fails with InvalidParameter, and the block's mass is by then the
record's mass: the value was streamed into the member before `SetNodeMass` looked at it.
The offset and the user data are untouched. -/
theorem ArchiveIn_invalid_mass (b : ChVariablesNode) (r : ArchiveRecord)
    (h : r.mass.isFinite = false ∨ Double.lt 0 r.mass = false) :
    (ArchiveIn b r).fault = some Fault.InvalidParameter ∧
    (ArchiveIn b r).state.mass = r.mass ∧
    (ArchiveIn b r).state.offset = b.offset ∧
    (ArchiveIn b r).state.user_data = b.user_data := by
  have hv : (r.mass.isFinite && Double.lt 0 r.mass) = false := by
    rcases h with h | h
    · rw [h]
      rfl
    · rw [h]
      exact Bool.and_false _
  rw [ArchiveIn_of_invalid b r hv]
  exact ⟨rfl, rfl, rfl, rfl⟩

/-- C5, as amended, at a fresh block and the record of mass zero. -/
theorem ArchiveIn_invalid_mass_witness :
    (ArchiveIn (ChVariablesNode.new 0) zeroMassRecord).fault = some Fault.InvalidParameter ∧
    (ArchiveIn (ChVariablesNode.new 0) zeroMassRecord).state.mass = zeroMassRecord.mass ∧
    (ArchiveIn (ChVariablesNode.new 0) zeroMassRecord).state.offset = 0 ∧
    (ArchiveIn (ChVariablesNode.new 0) zeroMassRecord).state.user_data = none :=
  ArchiveIn_invalid_mass (ChVariablesNode.new 0) zeroMassRecord
    (Or.inr (by simp [zeroMassRecord, Double.lt]))

/-- C5 as stated fails: a fresh block has the valid mass 1; reading the record of mass
zero into it fails with InvalidParameter, and afterwards the block's mass is 0, not 1. -/
theorem ArchiveIn_mass_not_retained :
    (ChVariablesNode.new 0).mass = 1 ∧
    Double.lt 0 (ChVariablesNode.new 0).mass = true ∧
    Double.lt 0 zeroMassRecord.mass = false ∧
    (ArchiveIn (ChVariablesNode.new 0) zeroMassRecord).fault = some Fault.InvalidParameter ∧
    (ArchiveIn (ChVariablesNode.new 0) zeroMassRecord).state.mass = 0 ∧
    (ArchiveIn (ChVariablesNode.new 0) zeroMassRecord).state.mass
      ≠ (ChVariablesNode.new 0).mass := by
  rw [ArchiveIn_of_invalid _ _ zeroMassRecord_invalid]
  refine ⟨rfl, by simp [ChVariablesNode.new, Double.lt], by simp [zeroMassRecord, Double.lt],
    rfl, rfl, ?_⟩
  simp [zeroMassRecord, ChVariablesNode.new]

/-! ## C6: SetNodeMass validates its argument -/

/-- C6: for every block, `SetNodeMass(m)` with `m` zero, negative, NaN or infinite fails with
InvalidParameter and `GetMass()` is what it was before the call; with `m` finite and
positive it returns and `GetMass()` is `m`. -/
theorem SetNodeMass_validates (b : ChVariablesNode) (m : Double) :
    ((m = 0 ∨ Double.lt m 0 = true ∨ m.isNaN = true ∨ m.isFinite = false) →
      (SetNodeMass b m).fault = some Fault.InvalidParameter ∧
      GetMass (SetNodeMass b m).state = GetMass b ∧ (SetNodeMass b m).state = b) ∧
    ((m.isFinite = true ∧ Double.lt 0 m = true) →
      (SetNodeMass b m).fault = none ∧ GetMass (SetNodeMass b m).state = m ∧
      (SetNodeMass b m).state.offset = b.offset ∧
      (SetNodeMass b m).state.user_data = b.user_data) := by
  constructor
  · intro h
    have hv : (m.isFinite && Double.lt 0 m) = false := by
      rcases h with rfl | h | h | h
      · simp [Double.lt]
      · cases m <;> simp_all [Double.lt, Double.isFinite]
        rename_i q
        exact le_of_lt h
      · cases m <;> simp_all [Double.isNaN, Double.isFinite]
      · simp [h]
    rw [SetNodeMass_of_invalid b m hv]
    exact ⟨rfl, rfl, rfl⟩
  · rintro ⟨h1, h2⟩
    rw [SetNodeMass_of_valid b m (by rw [h1, h2]; rfl)]
    exact ⟨rfl, rfl, rfl, rfl⟩

/-- C6 at the masses 0, -1 and NaN (rejected, mass 2 kept) and 5/2 (stored). -/
theorem SetNodeMass_validates_witness :
    ((SetNodeMass scenarioBlock 0).fault = some Fault.InvalidParameter ∧
      GetMass (SetNodeMass scenarioBlock 0).state = 2) ∧
    ((SetNodeMass scenarioBlock (Double.fin (-1))).fault = some Fault.InvalidParameter ∧
      GetMass (SetNodeMass scenarioBlock (Double.fin (-1))).state = 2) ∧
    ((SetNodeMass scenarioBlock Double.nan).fault = some Fault.InvalidParameter ∧
      GetMass (SetNodeMass scenarioBlock Double.nan).state = 2) ∧
    ((SetNodeMass scenarioBlock (Double.fin (5 / 2))).fault = none ∧
      GetMass (SetNodeMass scenarioBlock (Double.fin (5 / 2))).state = Double.fin (5 / 2)) := by
  have h0 := (SetNodeMass_validates scenarioBlock 0).1 (Or.inl rfl)
  have h1 := (SetNodeMass_validates scenarioBlock (Double.fin (-1))).1
    (Or.inr (Or.inl (by simp [Double.lt])))
  have h2 := (SetNodeMass_validates scenarioBlock Double.nan).1 (Or.inr (Or.inr (Or.inl rfl)))
  have h3 := (SetNodeMass_validates scenarioBlock (Double.fin (5 / 2))).2
    ⟨rfl, by simp [Double.lt]⟩
  exact ⟨⟨h0.1, h0.2.1⟩, ⟨h1.1, h1.2.1⟩, ⟨h2.1, h2.2.1⟩, ⟨h3.1, h3.2.1⟩⟩

/-! ## C7: serialization round trip -/

/-- C7: for a block `b` with finite mass `m > 0`, reading the record written by
`ArchiveOut(b)` into a freshly constructed block returns, the fresh block then has the
mass of `b`, and `Compute_invMb_v` gives on it the same fault and the same `result` as on
`b`, for all vectors. -/
theorem Archive_roundtrip (b : ChVariablesNode) (m : ℚ) (hm : 0 < m)
    (hb : b.mass = Double.fin m) (offset : Nat) :
    (ArchiveIn (ChVariablesNode.new offset) (ArchiveOut b)).fault = none ∧
    GetMass (ArchiveIn (ChVariablesNode.new offset) (ArchiveOut b)).state = GetMass b ∧
    ∀ result vect : List Double,
      (Compute_invMb_v
        ⟨(ArchiveIn (ChVariablesNode.new offset) (ArchiveOut b)).state, result, vect⟩).fault
        = (Compute_invMb_v ⟨b, result, vect⟩).fault ∧
      (Compute_invMb_v
        ⟨(ArchiveIn (ChVariablesNode.new offset) (ArchiveOut b)).state, result, vect⟩).state.result
        = (Compute_invMb_v ⟨b, result, vect⟩).state.result ∧
      (Compute_invMb_v
        ⟨(ArchiveIn (ChVariablesNode.new offset) (ArchiveOut b)).state, result, vect⟩).state.vect
        = (Compute_invMb_v ⟨b, result, vect⟩).state.vect := by
  have hvalid : (b.mass.isFinite && Double.lt 0 b.mass) = true := by
    rw [hb]
    simpa [Double.isFinite, Double.lt] using hm
  have hin : ArchiveIn (ChVariablesNode.new offset) (ArchiveOut b) =
      Outcome.ok { ChVariablesNode.new offset with mass := b.mass } := by
    unfold ArchiveIn ArchiveOut
    dsimp only
    rw [SetNodeMass_of_valid _ _ hvalid]
  rw [hin]
  refine ⟨rfl, rfl, ?_⟩
  intro result vect
  simp only [Outcome.ok_state]
  by_cases hv : vect.length = 3
  · by_cases hr : result.length = 3
    · obtain ⟨v0, v1, v2, rfl⟩ := List.length_eq_three.mp hv
      obtain ⟨r0, r1, r2, rfl⟩ := List.length_eq_three.mp hr
      rw [Compute_invMb_v_closed, Compute_invMb_v_closed]
      exact ⟨rfl, rfl, rfl⟩
    · simp [Compute_invMb_v, assertDim, GetDOF, hv, hr, Outcome.andThen, Outcome.ok,
        Outcome.fail]
  · simp [Compute_invMb_v, assertDim, GetDOF, hv, Outcome.andThen, Outcome.ok, Outcome.fail]

/-- C7 at mass 2.5: the fresh block gets mass 5/2. -/
theorem Archive_roundtrip_witness :
    (ArchiveIn (ChVariablesNode.new 0) (ArchiveOut heavyBlock)).fault = none ∧
    GetMass (ArchiveIn (ChVariablesNode.new 0) (ArchiveOut heavyBlock)).state
      = Double.fin (5 / 2) ∧
    (Compute_invMb_v ⟨(ArchiveIn (ChVariablesNode.new 0) (ArchiveOut heavyBlock)).state,
      [0, 0, 0], [1, 2, 3]⟩).state.result
      = (Compute_invMb_v ⟨heavyBlock, [0, 0, 0], [1, 2, 3]⟩).state.result := by
  have h := Archive_roundtrip heavyBlock (5 / 2) (by norm_num) rfl 0
  exact ⟨h.1, h.2.1, (h.2.2 [0, 0, 0] [1, 2, 3]).2.1⟩

/-! ## C8: the size assertions of the local operators -/

/-- A failed first `assert` aborts `Compute_invMb_v` in the frame it was called in. -/
theorem Compute_invMb_v_of_bad (s : Frame) (h : s.result.length ≠ 3 ∨ s.vect.length ≠ 3) :
    Compute_invMb_v s = Outcome.fail s Fault.AssertionFailed := by
  by_cases hv : s.vect.length = 3
  · have hr : s.result.length ≠ 3 := by
      rcases h with h | h
      · exact h
      · exact absurd hv h
    simp [Compute_invMb_v, assertDim, GetDOF, hv, hr]
  · simp [Compute_invMb_v, assertDim, GetDOF, hv]

/-- A failed `assert` aborts `Compute_inc_invMb_v` in the frame it was called in. -/
theorem Compute_inc_invMb_v_of_bad (s : Frame) (h : s.result.length ≠ 3 ∨ s.vect.length ≠ 3) :
    Compute_inc_invMb_v s = Outcome.fail s Fault.AssertionFailed := by
  by_cases hv : s.vect.length = 3
  · have hr : s.result.length ≠ 3 := by
      rcases h with h | h
      · exact h
      · exact absurd hv h
    simp [Compute_inc_invMb_v, assertDim, GetDOF, hv, hr]
  · simp [Compute_inc_invMb_v, assertDim, GetDOF, hv]

/-- A failed `assert` aborts `Compute_inc_Mb_v` in the frame it was called in. -/
theorem Compute_inc_Mb_v_of_bad (s : Frame) (h : s.result.length ≠ 3 ∨ s.vect.length ≠ 3) :
    Compute_inc_Mb_v s = Outcome.fail s Fault.AssertionFailed := by
  by_cases hr : s.result.length = 3
  · have hv : s.vect.length ≠ 3 := by
      rcases h with h | h
      · exact absurd hr h
      · exact h
    simp [Compute_inc_Mb_v, assertDim, GetDOF, hv, hr]
  · simp [Compute_inc_Mb_v, assertDim, GetDOF, hr]

/-- A vector of length at least 3 starts with three cells. -/
theorem exists_three_cells (l : List Double) (h : 3 ≤ l.length) :
    ∃ a b c t, l = a :: b :: c :: t := by
  match l, h with
  | a :: b :: c :: t, _ => exact ⟨a, b, c, t, rfl⟩

/-- Closed form of `Compute_invMb_v_NDEBUG` on vectors of length at least 3. -/
theorem Compute_invMb_v_NDEBUG_closed (b : ChVariablesNode) (r0 r1 r2 v0 v1 v2 : Double)
    (rs vs : List Double) :
    Compute_invMb_v_NDEBUG ⟨b, r0 :: r1 :: r2 :: rs, v0 :: v1 :: v2 :: vs⟩ =
      Outcome.ok ⟨b, (1 / b.mass * v0) :: (1 / b.mass * v1) :: (1 / b.mass * v2) :: rs,
        v0 :: v1 :: v2 :: vs⟩ := by
  simp [Compute_invMb_v_NDEBUG, assignScaled]

/-- Closed form of `Compute_inc_invMb_v_NDEBUG` on vectors of length at least 3. -/
theorem Compute_inc_invMb_v_NDEBUG_closed (b : ChVariablesNode) (r0 r1 r2 v0 v1 v2 : Double)
    (rs vs : List Double) :
    Compute_inc_invMb_v_NDEBUG ⟨b, r0 :: r1 :: r2 :: rs, v0 :: v1 :: v2 :: vs⟩ =
      Outcome.ok ⟨b, (r0 + 1 / b.mass * v0) :: (r1 + 1 / b.mass * v1) ::
        (r2 + 1 / b.mass * v2) :: rs, v0 :: v1 :: v2 :: vs⟩ := by
  simp [Compute_inc_invMb_v_NDEBUG, incrScaled]

/-- Closed form of `Compute_inc_Mb_v_NDEBUG` on vectors of length at least 3. -/
theorem Compute_inc_Mb_v_NDEBUG_closed (b : ChVariablesNode) (r0 r1 r2 v0 v1 v2 : Double)
    (rs vs : List Double) :
    Compute_inc_Mb_v_NDEBUG ⟨b, r0 :: r1 :: r2 :: rs, v0 :: v1 :: v2 :: vs⟩ =
      Outcome.ok ⟨b, (r0 + b.mass * v0) :: (r1 + b.mass * v1) :: (r2 + b.mass * v2) :: rs,
        v0 :: v1 :: v2 :: vs⟩ := by
  simp [Compute_inc_Mb_v_NDEBUG, incrScaled]

/-- Membership in the list of the three local operators. -/
theorem mem_localOperators (op opN : Frame → Outcome Frame) (h : (op, opN) ∈ localOperators) :
    (op = Compute_invMb_v ∧ opN = Compute_invMb_v_NDEBUG) ∨
    (op = Compute_inc_invMb_v ∧ opN = Compute_inc_invMb_v_NDEBUG) ∨
    (op = Compute_inc_Mb_v ∧ opN = Compute_inc_Mb_v_NDEBUG) := by
  simp only [localOperators, List.mem_cons, List.mem_singleton, List.not_mem_nil, or_false,
    Prod.mk.injEq] at h
  exact h

/-- On two vectors of length 3 each local operator, compiled with assertions, returns with
a `result` of length 3, and the build without assertions does the same. -/
theorem local_operator_of_good (op opN : Frame → Outcome Frame)
    (hop : (op, opN) ∈ localOperators) (s : Frame)
    (hr : s.result.length = 3) (hv : s.vect.length = 3) :
    (op s).fault = none ∧ (op s).state.result.length = 3 ∧ opN s = op s := by
  obtain ⟨b, result, vect⟩ := s
  obtain ⟨r0, r1, r2, rfl⟩ := List.length_eq_three.mp hr
  obtain ⟨v0, v1, v2, rfl⟩ := List.length_eq_three.mp hv
  rcases mem_localOperators op opN hop with ⟨rfl, rfl⟩ | ⟨rfl, rfl⟩ | ⟨rfl, rfl⟩
  · rw [Compute_invMb_v_closed, Compute_invMb_v_NDEBUG_closed]
    exact ⟨rfl, rfl, rfl⟩
  · rw [Compute_inc_invMb_v_closed, Compute_inc_invMb_v_NDEBUG_closed]
    exact ⟨rfl, rfl, rfl⟩
  · rw [Compute_inc_Mb_v_closed, Compute_inc_Mb_v_NDEBUG_closed]
    exact ⟨rfl, rfl, rfl⟩

/-- Compiled with `NDEBUG`, each local operator returns on vectors of length at least 3,
keeps the length of `result` and every component of `result` from index 3 on. -/
theorem local_operator_NDEBUG_of_long (op opN : Frame → Outcome Frame)
    (hop : (op, opN) ∈ localOperators) (s : Frame)
    (hr : 3 ≤ s.result.length) (hv : 3 ≤ s.vect.length) :
    (opN s).fault = none ∧ (opN s).state.result.length = s.result.length ∧
    ∀ i, 3 ≤ i → (opN s).state.result[i]? = s.result[i]? := by
  obtain ⟨b, result, vect⟩ := s
  obtain ⟨r0, r1, r2, rs, rfl⟩ := exists_three_cells result hr
  obtain ⟨v0, v1, v2, vs, rfl⟩ := exists_three_cells vect hv
  have hidx : ∀ (x0 x1 x2 : Double) (i : Nat), 3 ≤ i →
      (x0 :: x1 :: x2 :: rs)[i]? = (r0 :: r1 :: r2 :: rs)[i]? := by
    intro x0 x1 x2 i hi
    obtain ⟨k, rfl⟩ : ∃ k, i = k + 3 := ⟨i - 3, by omega⟩
    rfl
  rcases mem_localOperators op opN hop with ⟨rfl, rfl⟩ | ⟨rfl, rfl⟩ | ⟨rfl, rfl⟩
  · rw [Compute_invMb_v_NDEBUG_closed]
    exact ⟨rfl, rfl, hidx _ _ _⟩
  · rw [Compute_inc_invMb_v_NDEBUG_closed]
    exact ⟨rfl, rfl, hidx _ _ _⟩
  · rw [Compute_inc_Mb_v_NDEBUG_closed]
    exact ⟨rfl, rfl, hidx _ _ _⟩

/-- The statement `result(i) = k * vect(j)` returns or reaches an access outside a vector. -/
theorem assignScaled_fault (i : Nat) (k : Double) (j : Nat) (s : Frame) :
    (assignScaled i k j s).fault = none ∨
      (assignScaled i k j s).fault = some Fault.OutOfBounds := by
  unfold assignScaled
  cases s.vect[j]? <;> cases s.result[i]? <;> first | exact Or.inl rfl | exact Or.inr rfl

/-- The statement `result(i) += k * vect(j)` returns or reaches an access outside a vector. -/
theorem incrScaled_fault (i : Nat) (k : Double) (j : Nat) (s : Frame) :
    (incrScaled i k j s).fault = none ∨
      (incrScaled i k j s).fault = some Fault.OutOfBounds := by
  unfold incrScaled
  cases s.vect[j]? <;> cases s.result[i]? <;> first | exact Or.inl rfl | exact Or.inr rfl

/-- Statements that return or reach an access outside a vector, run in sequence, do so too. -/
theorem andThen_fault (x : Outcome Frame) (k : Frame → Outcome Frame)
    (hx : x.fault = none ∨ x.fault = some Fault.OutOfBounds)
    (hk : ∀ s, (k s).fault = none ∨ (k s).fault = some Fault.OutOfBounds) :
    (x.andThen k).fault = none ∨ (x.andThen k).fault = some Fault.OutOfBounds := by
  obtain ⟨st, f⟩ := x
  cases f with
  | none => exact hk st
  | some e => exact hx

/-- Compiled with `NDEBUG`, a local operator returns or reaches an access outside a vector:
it has no other way to end. -/
theorem local_operator_NDEBUG_fault (op opN : Frame → Outcome Frame)
    (hop : (op, opN) ∈ localOperators) (s : Frame) :
    (opN s).fault = none ∨ (opN s).fault = some Fault.OutOfBounds := by
  rcases mem_localOperators op opN hop with ⟨rfl, rfl⟩ | ⟨rfl, rfl⟩ | ⟨rfl, rfl⟩
  · exact andThen_fault _ _ (andThen_fault _ _ (assignScaled_fault _ _ _ _)
      (fun t => assignScaled_fault _ _ _ t)) (fun t => assignScaled_fault _ _ _ t)
  · exact andThen_fault _ _ (andThen_fault _ _ (incrScaled_fault _ _ _ _)
      (fun t => incrScaled_fault _ _ _ t)) (fun t => incrScaled_fault _ _ _ t)
  · exact andThen_fault _ _ (andThen_fault _ _ (incrScaled_fault _ _ _ _)
      (fun t => incrScaled_fault _ _ _ t)) (fun t => incrScaled_fault _ _ _ t)

/-- C8, as amended: none of `Compute_invMb_v`, `Compute_inc_invMb_v`, `Compute_inc_Mb_v`
hands a DimensionMismatch to its caller; the lengths are checked by `assert` only.
Compiled with assertions, the call is aborted at the `assert` exactly when `result` or `vect`
has a length other than `GetDOF() = 3`, before any write (the frame is the one the call
started in), and every other call returns with a `result` of length 3.  Compiled with
`NDEBUG` there is no check: on vectors of length 3 the call does what the build with
assertions does, and on vectors of length at least 3 it returns, with the length of
`result` and its components from index 3 on unchanged. -/
theorem local_operators_assert_dimensions (op opN : Frame → Outcome Frame)
    (hop : (op, opN) ∈ localOperators) (s : Frame) :
    GetDOF s.self = 3 ∧
    ((op s).fault = some Fault.AssertionFailed ↔
      (s.result.length ≠ GetDOF s.self ∨ s.vect.length ≠ GetDOF s.self)) ∧
    ((op s).fault = some Fault.AssertionFailed → (op s).state = s) ∧
    ((op s).fault ≠ some Fault.AssertionFailed →
      (op s).fault = none ∧ (op s).state.result.length = 3) ∧
    (op s).fault ≠ some Fault.DimensionMismatch ∧
    (opN s).fault ≠ some Fault.DimensionMismatch ∧
    ((s.result.length = 3 ∧ s.vect.length = 3) → opN s = op s) ∧
    ((3 ≤ s.result.length ∧ 3 ≤ s.vect.length) →
      (opN s).fault = none ∧ (opN s).state.result.length = s.result.length ∧
      ∀ i, 3 ≤ i → (opN s).state.result[i]? = s.result[i]?) := by
  have hbad : (s.result.length ≠ 3 ∨ s.vect.length ≠ 3) →
      op s = Outcome.fail s Fault.AssertionFailed := by
    intro h
    rcases mem_localOperators op opN hop with ⟨rfl, rfl⟩ | ⟨rfl, rfl⟩ | ⟨rfl, rfl⟩
    · exact Compute_invMb_v_of_bad s h
    · exact Compute_inc_invMb_v_of_bad s h
    · exact Compute_inc_Mb_v_of_bad s h
  have hlong := local_operator_NDEBUG_of_long op opN hop s
  have hN : (opN s).fault ≠ some Fault.DimensionMismatch := by
    rcases local_operator_NDEBUG_fault op opN hop s with h | h <;> rw [h] <;>
      exact fun hc => nomatch hc
  by_cases h : s.result.length ≠ 3 ∨ s.vect.length ≠ 3
  · have e := hbad h
    refine ⟨rfl, ?_, ?_, ?_, ?_, hN, ?_, fun hl => hlong hl.1 hl.2⟩
    · rw [e]
      exact ⟨fun _ => h, fun _ => rfl⟩
    · intro _
      rw [e]
      rfl
    · intro hne
      rw [e] at hne
      exact absurd rfl hne
    · rw [e]
      exact fun hc => nomatch hc
    · intro hl
      rcases h with h | h
      · exact absurd hl.1 h
      · exact absurd hl.2 h
  · have hr : s.result.length = 3 := by
      by_contra hr
      exact h (Or.inl hr)
    have hv : s.vect.length = 3 := by
      by_contra hv
      exact h (Or.inr hv)
    have g := local_operator_of_good op opN hop s hr hv
    refine ⟨rfl, ?_, ?_, ?_, ?_, hN, fun _ => g.2.2, fun hl => hlong hl.1 hl.2⟩
    · constructor
      · intro hf
        rw [g.1] at hf
        cases hf
      · intro hb
        exact absurd hb h
    · intro hf
      rw [g.1] at hf
      cases hf
    · intro _
      exact ⟨g.1, g.2.1⟩
    · rw [g.1]
      exact fun hc => nomatch hc

/-- C8, as amended, at `Compute_invMb_v` on vectors of length 5: with assertions the call
is aborted at the `assert` with the frame untouched; with `NDEBUG` it returns. -/
theorem local_operators_assert_dimensions_witness :
    (Compute_invMb_v longFrame).fault = some Fault.AssertionFailed ∧
    (Compute_invMb_v longFrame).state = longFrame ∧
    (Compute_invMb_v longFrame).fault ≠ some Fault.DimensionMismatch ∧
    (Compute_invMb_v_NDEBUG longFrame).fault = none := by
  have h := local_operators_assert_dimensions Compute_invMb_v Compute_invMb_v_NDEBUG
    (List.mem_cons_self _ _) longFrame
  have hf : (Compute_invMb_v longFrame).fault = some Fault.AssertionFailed :=
    h.2.1.mpr (Or.inl (by decide))
  exact ⟨hf, h.2.2.1 hf, h.2.2.2.2.1, (h.2.2.2.2.2.2.2 ⟨by decide, by decide⟩).1⟩

/-- C8 as stated fails: compiled with `NDEBUG`, `Compute_invMb_v` on the block of mass 2
with `result = [7, 8, 9, 10, 11]` and `vect = [1, 2, 3, 4, 5]`, both of length 5, does not
fail: it returns, and `result` has been written, `[1/2, 1, 3/2, 10, 11]`.  Compiled with
assertions the same call is aborted at the `assert`; no DimensionMismatch reaches the
caller. -/
theorem Compute_invMb_v_NDEBUG_no_check :
    longFrame.result.length ≠ GetDOF longFrame.self ∧
    (Compute_invMb_v_NDEBUG longFrame).fault = none ∧
    (Compute_invMb_v_NDEBUG longFrame).state.result =
      [Double.fin (1 / 2), 1, Double.fin (3 / 2), 10, 11] ∧
    (Compute_invMb_v_NDEBUG longFrame).state.result ≠ longFrame.result ∧
    (Compute_invMb_v longFrame).fault = some Fault.AssertionFailed ∧
    (Compute_invMb_v longFrame).fault ≠ some Fault.DimensionMismatch := by
  have hinv : (1 : Double) / 2 = Double.fin (1 / 2) := by
    simpa using Double.fin_div_fin 1 2 (by norm_num)
  have hrun : Compute_invMb_v_NDEBUG longFrame = Outcome.ok
      ⟨scenarioBlock, [Double.fin (1 / 2), 1, Double.fin (3 / 2), 10, 11],
        [1, 2, 3, 4, 5]⟩ := by
    have e := Compute_invMb_v_NDEBUG_closed scenarioBlock 7 8 9 1 2 3 [10, 11] [4, 5]
    have hm : scenarioBlock.mass = 2 := rfl
    rw [hm, hinv] at e
    rw [show longFrame = ⟨scenarioBlock, [7, 8, 9, 10, 11], [1, 2, 3, 4, 5]⟩ from rfl, e]
    simp
    norm_num
  have hchk : Compute_invMb_v longFrame = Outcome.fail longFrame Fault.AssertionFailed :=
    Compute_invMb_v_of_bad longFrame (Or.inl (by decide))
  refine ⟨by decide, ?_, ?_, ?_, ?_, ?_⟩
  · rw [hrun]
    rfl
  · rw [hrun]
    rfl
  · rw [hrun]
    intro hc
    have h0 : ([Double.fin (1 / 2), 1, Double.fin (3 / 2), 10, 11] : List Double)[0]? =
        longFrame.result[0]? := congrArg (fun l => l[0]?) hc
    have h7 : Double.fin (1 / 2) ≠ 7 := by
      simp
      norm_num
    exact h7 (Option.some.inj h0)
  · rw [hchk]
    rfl
  · rw [hchk]
    exact fun hc => nomatch hc

/-! ## C9: MultiplyAndAdd makes no size check -/

/-- An out-of-range `result(i) += k * vect(j)` ends in the frame it started in, at the
access outside the vector. -/
theorem incrScaled_of_short (i : Nat) (k : Double) (j : Nat) (s : Frame)
    (h : s.result.length ≤ i ∨ s.vect.length ≤ j) :
    incrScaled i k j s = Outcome.fail s Fault.OutOfBounds := by
  unfold incrScaled
  rcases h with h | h
  · rw [List.getElem?_eq_none h]
    cases s.vect[j]? <;> rfl
  · rw [List.getElem?_eq_none h]

/-- An in-range `result(i) += k * vect(j)` returns and keeps the block, `vect` and the
length of `result`. -/
theorem incrScaled_of_lt (i : Nat) (k : Double) (j : Nat) (s : Frame)
    (hi : i < s.result.length) (hj : j < s.vect.length) :
    ∃ t, incrScaled i k j s = Outcome.ok t ∧ t.self = s.self ∧ t.vect = s.vect ∧
      t.result.length = s.result.length := by
  obtain ⟨r, hr⟩ := exists_getElem?_of_lt s.result i hi
  obtain ⟨v, hv⟩ := exists_getElem?_of_lt s.vect j hj
  exact ⟨_, incrScaled_of_some i k j s r v hr hv, rfl, rfl, by simp⟩

/-- Whatever the lengths, `result(i) += k * vect(j)` keeps the block, `vect` and every
component of `result` other than `i`. -/
theorem incrScaled_frame (i : Nat) (k : Double) (j : Nat) (s : Frame) :
    (incrScaled i k j s).state.self = s.self ∧ (incrScaled i k j s).state.vect = s.vect ∧
    ∀ n, n ≠ i → (incrScaled i k j s).state.result[n]? = s.result[n]? := by
  unfold incrScaled
  cases hv : s.vect[j]? with
  | none => exact ⟨rfl, rfl, fun _ _ => rfl⟩
  | some v =>
    cases hr : s.result[i]? with
    | none => exact ⟨rfl, rfl, fun _ _ => rfl⟩
    | some r =>
      refine ⟨rfl, rfl, ?_⟩
      intro n hn
      simp only [Outcome.ok_state]
      rw [List.getElem?_set_ne (Ne.symm hn)]

/-- A further statement `result(o+d) += ...` of the block `b`, after an outcome of the
block `b`, keeps the block, `vect` and every component of `result` other than `o + d`. -/
theorem andThen_incrScaled_frame (x : Outcome Frame) (b : ChVariablesNode) (c : Double)
    (d : Nat) (hself : x.state.self = b) :
    (x.andThen fun s =>
      incrScaled (s.self.offset + d) (c * s.self.mass) (s.self.offset + d) s).state.self = b ∧
    (x.andThen fun s =>
      incrScaled (s.self.offset + d) (c * s.self.mass) (s.self.offset + d) s).state.vect
        = x.state.vect ∧
    ∀ n, n ≠ b.offset + d →
      (x.andThen fun s =>
        incrScaled (s.self.offset + d) (c * s.self.mass) (s.self.offset + d) s).state.result[n]?
        = x.state.result[n]? := by
  obtain ⟨st, f⟩ := x
  dsimp only at hself
  cases f with
  | some e => exact ⟨hself, rfl, fun _ _ => rfl⟩
  | none =>
    have h := incrScaled_frame (st.self.offset + d) (c * st.self.mass) (st.self.offset + d) st
    subst hself
    exact ⟨h.1, h.2.1, h.2.2⟩

/-- When `result` or `vect` is shorter than `offset + 3`, `MultiplyAndAdd` reaches an
element access outside a vector. -/
theorem MultiplyAndAdd_of_short (s : Frame) (c_a : Double)
    (h : s.result.length < s.self.offset + 3 ∨ s.vect.length < s.self.offset + 3) :
    (MultiplyAndAdd s c_a).fault = some Fault.OutOfBounds := by
  unfold MultiplyAndAdd
  by_cases h0 : s.result.length ≤ s.self.offset ∨ s.vect.length ≤ s.self.offset
  · rw [incrScaled_of_short _ _ _ s h0]
    rfl
  · have hr0 : s.self.offset < s.result.length := by omega
    have hv0 : s.self.offset < s.vect.length := by omega
    obtain ⟨t, ht, hts, htv, htl⟩ := incrScaled_of_lt s.self.offset (c_a * s.self.mass)
      s.self.offset s hr0 hv0
    rw [ht, Outcome.ok_andThen]
    by_cases h1 : t.result.length ≤ t.self.offset + 1 ∨ t.vect.length ≤ t.self.offset + 1
    · rw [incrScaled_of_short _ _ _ t h1]
      rfl
    · have hr1 : t.self.offset + 1 < t.result.length := by omega
      have hv1 : t.self.offset + 1 < t.vect.length := by omega
      obtain ⟨u, hu, hus, huv, hul⟩ := incrScaled_of_lt (t.self.offset + 1)
        (c_a * t.self.mass) (t.self.offset + 1) t hr1 hv1
      rw [hu, Outcome.ok_andThen]
      have h2 : u.result.length ≤ u.self.offset + 2 ∨ u.vect.length ≤ u.self.offset + 2 := by
        rw [hus, huv, hul, hts, htv, htl]
        omega
      rw [incrScaled_of_short _ _ _ u h2]
      rfl

/-- C9, as amended: `MultiplyAndAdd` makes no size check and never ends with
DimensionMismatch (nor with a failed assertion): vectors that contain
`[offset, offset+3)` are the caller's business, and with them the call returns.  When
`result` or `vect` is shorter than `offset + 3` the call reaches an element access outside
a vector; and whatever the lengths, each `result[offset+i]` that lies, with
`vect[offset+i]`, inside the vectors has by then been updated to
`result[offset+i] + c * m * vect[offset+i]`. -/
theorem MultiplyAndAdd_unchecked (s : Frame) (c_a : Double) :
    (MultiplyAndAdd s c_a).fault ≠ some Fault.DimensionMismatch ∧
    (MultiplyAndAdd s c_a).fault ≠ some Fault.AssertionFailed ∧
    ((s.self.offset + 3 ≤ s.result.length ∧ s.self.offset + 3 ≤ s.vect.length) →
      (MultiplyAndAdd s c_a).fault = none) ∧
    ((s.result.length < s.self.offset + 3 ∨ s.vect.length < s.self.offset + 3) →
      (MultiplyAndAdd s c_a).fault = some Fault.OutOfBounds) ∧
    (∀ i, i < 3 → ∀ r v, s.result[s.self.offset + i]? = some r →
      s.vect[s.self.offset + i]? = some v →
      (MultiplyAndAdd s c_a).state.result[s.self.offset + i]? =
        some (r + c_a * s.self.mass * v)) := by
  have hlong : (s.self.offset + 3 ≤ s.result.length ∧ s.self.offset + 3 ≤ s.vect.length) →
      (MultiplyAndAdd s c_a).fault = none := by
    intro h
    obtain ⟨r0, r1, r2, v0, v1, v2, h0, h1, h2, g0, g1, g2⟩ := slice_values s h.1 h.2
    rw [MultiplyAndAdd_closed s c_a r0 r1 r2 v0 v1 v2 h0 h1 h2 g0 g1 g2]
    rfl
  have hshort := MultiplyAndAdd_of_short s c_a
  have hfault : (MultiplyAndAdd s c_a).fault = none ∨
      (MultiplyAndAdd s c_a).fault = some Fault.OutOfBounds := by
    by_cases h : s.result.length < s.self.offset + 3 ∨ s.vect.length < s.self.offset + 3
    · exact Or.inr (hshort h)
    · exact Or.inl (hlong ⟨by omega, by omega⟩)
  refine ⟨?_, ?_, hlong, hshort, ?_⟩
  · rcases hfault with h | h <;> rw [h] <;> exact fun hc => nomatch hc
  · rcases hfault with h | h <;> rw [h] <;> exact fun hc => nomatch hc
  · intro i hi r v hri hvi
    have hir : s.self.offset + i < s.result.length := by
      by_contra hge
      rw [List.getElem?_eq_none (Nat.le_of_not_lt hge)] at hri
      cases hri
    have hiv : s.self.offset + i < s.vect.length := by
      by_contra hge
      rw [List.getElem?_eq_none (Nat.le_of_not_lt hge)] at hvi
      cases hvi
    have hcases : i = 0 ∨ i = 1 ∨ i = 2 := by omega
    unfold MultiplyAndAdd
    rcases hcases with rfl | rfl | rfl
    · rw [Nat.add_zero] at hri hvi hir
      rw [incrScaled_of_some _ _ _ s r v hri hvi]
      have f1 := andThen_incrScaled_frame
        (Outcome.ok (Frame.mk s.self (s.result.set s.self.offset (r + c_a * s.self.mass * v))
          s.vect)) s.self c_a 1 rfl
      have f2 := andThen_incrScaled_frame _ s.self c_a 2 f1.1
      rw [Nat.add_zero, f2.2.2 s.self.offset (by omega), f1.2.2 s.self.offset (by omega)]
      exact List.getElem?_set_self hir
    · obtain ⟨r0, hr0⟩ := exists_getElem?_of_lt s.result s.self.offset (by omega)
      obtain ⟨v0, hv0⟩ := exists_getElem?_of_lt s.vect s.self.offset (by omega)
      rw [incrScaled_of_some _ _ _ s r0 v0 hr0 hv0, Outcome.ok_andThen]
      dsimp only
      rw [incrScaled_of_some _ _ _
        (Frame.mk s.self (s.result.set s.self.offset _) s.vect) r v
        (by simpa [List.getElem?_set] using hri) hvi]
      have f2 := andThen_incrScaled_frame
        (Outcome.ok (Frame.mk s.self
          ((s.result.set s.self.offset (r0 + c_a * s.self.mass * v0)).set (s.self.offset + 1)
            (r + c_a * s.self.mass * v)) s.vect)) s.self c_a 2 rfl
      rw [f2.2.2 (s.self.offset + 1) (by omega)]
      exact List.getElem?_set_self (by simpa using hir)
    · obtain ⟨r0, r1, r2, v0, v1, v2, h0, h1, h2, g0, g1, g2⟩ :=
        slice_values s (by omega) (by omega)
      have e := MultiplyAndAdd_closed s c_a r0 r1 r2 v0 v1 v2 h0 h1 h2 g0 g1 g2
      unfold MultiplyAndAdd at e
      rw [e]
      rw [h2] at hri
      rw [g2] at hvi
      cases hri
      cases hvi
      exact List.getElem?_set_self (by simpa using hir)

/-- C9, as amended, at the scenario's block (mass 2, offset 10): with vectors of size 5 no
DimensionMismatch, the call reaches an access outside the vectors; with a `result` of size
11, `result[10]` has been updated from 0 to `0 + 3 * 2 * 1`. -/
theorem MultiplyAndAdd_unchecked_witness :
    (MultiplyAndAdd shortFrame 3).fault ≠ some Fault.DimensionMismatch ∧
    (MultiplyAndAdd shortFrame 3).fault = some Fault.OutOfBounds ∧
    (MultiplyAndAdd truncatedFrame 3).state.result[10]? =
      some (0 + 3 * truncatedFrame.self.mass * 1) := by
  have h := MultiplyAndAdd_unchecked shortFrame 3
  have g := MultiplyAndAdd_unchecked truncatedFrame 3
  exact ⟨h.1, h.2.2.2.1 (Or.inl (by decide)), g.2.2.2.2 0 (by decide) 0 1 rfl rfl⟩

/-- C9 as stated fails.  With mass 2, offset 10 and global vectors of size 5 the call does
not end with DimensionMismatch; and with a `result` of size 11 (shorter than
`offset + 3`) the call has written `result[10]`, from 0 to 6. -/
theorem MultiplyAndAdd_no_dimension_check :
    (MultiplyAndAdd shortFrame 3).fault ≠ some Fault.DimensionMismatch ∧
    truncatedFrame.result.length < truncatedFrame.self.offset + 3 ∧
    (MultiplyAndAdd truncatedFrame 3).fault ≠ some Fault.DimensionMismatch ∧
    truncatedFrame.result[10]? = some 0 ∧
    (MultiplyAndAdd truncatedFrame 3).state.result[10]? = some 6 ∧
    (MultiplyAndAdd truncatedFrame 3).state.result ≠ truncatedFrame.result := by
  have hval : (0 : Double) + 3 * 2 * 1 = 6 := by
    simp
    norm_num
  have hrun : MultiplyAndAdd truncatedFrame 3 = Outcome.fail
      ⟨scenarioBlock, List.replicate 10 0 ++ [6], scenarioFrame.vect⟩
      Fault.OutOfBounds := by
    rw [← hval]
    rfl
  have h6 : (6 : Double) ≠ 0 := by
    simp
  refine ⟨by decide, by decide, ?_, rfl, ?_, ?_⟩
  · rw [hrun]
    exact fun hc => nomatch hc
  · rw [hrun]
    rfl
  · rw [hrun]
    intro hc
    have h10 : (List.replicate 10 (0 : Double) ++ [6])[10]? = truncatedFrame.result[10]? :=
      congrArg (fun l => l[10]?) hc
    exact h6 (Option.some.inj h10)

/-! ## C10: the value Compute_invMb_v writes -/

/-- C10: on vectors of length 3, `Compute_invMb_v` returns with
`result[i] = (1/mass) * vect[i]` for `i = 0, 1, 2`, whatever `result` held before, and each
component comes from the same component of `vect` alone; for a finite mass `m ≠ 0` and a
finite `vect[i] = q` that value is the rational `(1/m) * q`.  The block and `vect` are
unchanged. -/
theorem Compute_invMb_v_value (s : Frame) (hr : s.result.length = 3)
    (hv : s.vect.length = 3) :
    (Compute_invMb_v s).fault = none ∧
    (Compute_invMb_v s).state.result = s.vect.map (fun v => 1 / s.self.mass * v) ∧
    (Compute_invMb_v s).state.vect = s.vect ∧
    (Compute_invMb_v s).state.self = s.self ∧
    (∀ m : ℚ, s.self.mass = Double.fin m → m ≠ 0 →
      ∀ (i : Nat) (q : ℚ), s.vect[i]? = some (Double.fin q) →
      (Compute_invMb_v s).state.result[i]? = some (Double.fin (1 / m * q))) := by
  obtain ⟨b, result, vect⟩ := s
  obtain ⟨r0, r1, r2, rfl⟩ := List.length_eq_three.mp hr
  obtain ⟨v0, v1, v2, rfl⟩ := List.length_eq_three.mp hv
  rw [Compute_invMb_v_closed]
  refine ⟨rfl, rfl, rfl, rfl, ?_⟩
  intro m hm hne i q hi
  have hinv : (1 : Double) / Double.fin m = Double.fin (1 / m) := by
    simpa using Double.fin_div_fin 1 m hne
  simp only [Outcome.ok_state]
  rw [hm, hinv]
  match i, hi with
  | 0, hi =>
    cases hi
    rfl
  | 1, hi =>
    cases hi
    rfl
  | 2, hi =>
    cases hi
    rfl

/-- C10 at mass 2 and `vect = [1, 2, 3]`, over a `result` that held `[7, 8, 9]`. -/
theorem Compute_invMb_v_value_witness :
    (Compute_invMb_v ⟨scenarioBlock, [7, 8, 9], [1, 2, 3]⟩).fault = none ∧
    (Compute_invMb_v ⟨scenarioBlock, [7, 8, 9], [1, 2, 3]⟩).state.result[1]?
      = some (Double.fin (1 / 2 * 2)) := by
  have h := Compute_invMb_v_value ⟨scenarioBlock, [7, 8, 9], [1, 2, 3]⟩ rfl rfl
  exact ⟨h.1, h.2.2.2.2 2 rfl (by norm_num) 1 2 rfl⟩

/-! ## C11: the value Compute_inc_Mb_v writes -/

/-- C11: on vectors of length 3, `Compute_inc_Mb_v` returns with
`result[i] = old result[i] + mass * vect[i]` for `i = 0, 1, 2`; `vect` and the block are
unchanged. -/
theorem Compute_inc_Mb_v_value (s : Frame) (hr : s.result.length = 3)
    (hv : s.vect.length = 3) :
    (Compute_inc_Mb_v s).fault = none ∧
    (Compute_inc_Mb_v s).state.result =
      List.zipWith (fun r v => r + s.self.mass * v) s.result s.vect ∧
    (∀ (i : Nat) (r v : Double), s.result[i]? = some r → s.vect[i]? = some v →
      (Compute_inc_Mb_v s).state.result[i]? = some (r + s.self.mass * v)) ∧
    (Compute_inc_Mb_v s).state.vect = s.vect ∧
    (Compute_inc_Mb_v s).state.self = s.self := by
  obtain ⟨b, result, vect⟩ := s
  obtain ⟨r0, r1, r2, rfl⟩ := List.length_eq_three.mp hr
  obtain ⟨v0, v1, v2, rfl⟩ := List.length_eq_three.mp hv
  rw [Compute_inc_Mb_v_closed]
  refine ⟨rfl, rfl, ?_, rfl, rfl⟩
  intro i r v hri hvi
  match i, hri, hvi with
  | 0, hri, hvi =>
    cases hri
    cases hvi
    rfl
  | 1, hri, hvi =>
    cases hri
    cases hvi
    rfl
  | 2, hri, hvi =>
    cases hri
    cases hvi
    rfl

/-- C11 at mass 2, `result = [7, 8, 9]`, `vect = [1, 2, 3]`: `result` becomes `[9, 12, 15]`. -/
theorem Compute_inc_Mb_v_value_witness :
    (Compute_inc_Mb_v ⟨scenarioBlock, [7, 8, 9], [1, 2, 3]⟩).fault = none ∧
    (Compute_inc_Mb_v ⟨scenarioBlock, [7, 8, 9], [1, 2, 3]⟩).state.result = [9, 12, 15] ∧
    (Compute_inc_Mb_v ⟨scenarioBlock, [7, 8, 9], [1, 2, 3]⟩).state.vect = [1, 2, 3] := by
  have h := Compute_inc_Mb_v_value ⟨scenarioBlock, [7, 8, 9], [1, 2, 3]⟩ rfl rfl
  refine ⟨h.1, ?_, h.2.2.2.1⟩
  rw [h.2.1]
  simp [scenarioBlock]
  norm_num

/-! ## C12: the value Compute_inc_invMb_v writes -/

/-- C12: on vectors of length 3, `Compute_inc_invMb_v` returns with `result` equal to the
old `result` plus, componentwise, the vector that `Compute_invMb_v` computes from `vect`
(whatever that call is handed as `result`): `result[i] = old result[i] + (1/mass) * vect[i]`;
for a finite mass `m ≠ 0` and finite components the value is the rational
`r + (1/m) * q`. -/
theorem Compute_inc_invMb_v_value (s : Frame) (hr : s.result.length = 3)
    (hv : s.vect.length = 3) :
    (Compute_inc_invMb_v s).fault = none ∧
    (∀ w : List Double, w.length = 3 →
      (Compute_inc_invMb_v s).state.result =
        List.zipWith (fun r x => r + x) s.result
          (Compute_invMb_v ⟨s.self, w, s.vect⟩).state.result) ∧
    (∀ (i : Nat) (r v : Double), s.result[i]? = some r → s.vect[i]? = some v →
      (Compute_inc_invMb_v s).state.result[i]? = some (r + 1 / s.self.mass * v)) ∧
    (∀ m : ℚ, s.self.mass = Double.fin m → m ≠ 0 →
      ∀ (i : Nat) (r q : ℚ), s.result[i]? = some (Double.fin r) →
        s.vect[i]? = some (Double.fin q) →
        (Compute_inc_invMb_v s).state.result[i]? = some (Double.fin (r + 1 / m * q))) ∧
    (Compute_inc_invMb_v s).state.vect = s.vect := by
  obtain ⟨b, result, vect⟩ := s
  obtain ⟨r0, r1, r2, rfl⟩ := List.length_eq_three.mp hr
  obtain ⟨v0, v1, v2, rfl⟩ := List.length_eq_three.mp hv
  have hidx : ∀ (i : Nat) (r v : Double), [r0, r1, r2][i]? = some r → [v0, v1, v2][i]? = some v →
      [r0 + 1 / b.mass * v0, r1 + 1 / b.mass * v1, r2 + 1 / b.mass * v2][i]?
        = some (r + 1 / b.mass * v) := by
    intro i r v hri hvi
    match i, hri, hvi with
    | 0, hri, hvi =>
      cases hri
      cases hvi
      rfl
    | 1, hri, hvi =>
      cases hri
      cases hvi
      rfl
    | 2, hri, hvi =>
      cases hri
      cases hvi
      rfl
  rw [Compute_inc_invMb_v_closed]
  refine ⟨rfl, ?_, hidx, ?_, rfl⟩
  · intro w hw
    obtain ⟨w0, w1, w2, rfl⟩ := List.length_eq_three.mp hw
    rw [Compute_invMb_v_closed]
    rfl
  · intro m hm hne i r q hri hvi
    have hinv : (1 : Double) / Double.fin m = Double.fin (1 / m) := by
      simpa using Double.fin_div_fin 1 m hne
    have h := hidx i (Double.fin r) (Double.fin q) hri hvi
    simp only [Outcome.ok_state]
    rw [h, hm, hinv]
    rfl

/-- C12 at mass 2, `result = [7, 8, 9]`, `vect = [1, 2, 3]`: component 1 becomes `8 + (1/2) * 2`. -/
theorem Compute_inc_invMb_v_value_witness :
    (Compute_inc_invMb_v ⟨scenarioBlock, [7, 8, 9], [1, 2, 3]⟩).fault = none ∧
    (Compute_inc_invMb_v ⟨scenarioBlock, [7, 8, 9], [1, 2, 3]⟩).state.result[1]?
      = some (Double.fin (8 + 1 / 2 * 2)) := by
  have h := Compute_inc_invMb_v_value ⟨scenarioBlock, [7, 8, 9], [1, 2, 3]⟩ rfl rfl
  exact ⟨h.1, h.2.2.2.1 2 rfl (by norm_num) 1 8 2 rfl rfl⟩

/-! ## C13: DiagonalAdd -/

/-- Closed form of `DiagonalAdd` when `result` holds the block's slice. -/
theorem DiagonalAdd_closed (s : Frame) (c_a r0 r1 r2 : Double)
    (hr0 : s.result[s.self.offset]? = some r0) (hr1 : s.result[s.self.offset + 1]? = some r1)
    (hr2 : s.result[s.self.offset + 2]? = some r2) :
    DiagonalAdd s c_a = Outcome.ok (Frame.mk s.self
      (List.set (List.set (List.set s.result s.self.offset (r0 + c_a * s.self.mass))
        (s.self.offset + 1) (r1 + c_a * s.self.mass))
        (s.self.offset + 2) (r2 + c_a * s.self.mass)) s.vect) := by
  unfold DiagonalAdd
  rw [incrBy_of_some _ _ s r0 hr0, Outcome.ok_andThen]
  dsimp only
  rw [incrBy_of_some _ _ (Frame.mk s.self (s.result.set s.self.offset _) s.vect) r1
    (by simpa [List.getElem?_set] using hr1), Outcome.ok_andThen]
  dsimp only
  rw [incrBy_of_some _ _ (Frame.mk s.self ((s.result.set s.self.offset _).set _ _) s.vect)
    r2 (by simpa [List.getElem?_set] using hr2)]

/-- The three values of the block's slice of a vector that is long enough. -/
theorem slice_of_le (l : List Double) (o : Nat) (h : o + 3 ≤ l.length) :
    ∃ x0 x1 x2, l[o]? = some x0 ∧ l[o + 1]? = some x1 ∧ l[o + 2]? = some x2 := by
  obtain ⟨x0, h0⟩ := exists_getElem?_of_lt l o (by omega)
  obtain ⟨x1, h1⟩ := exists_getElem?_of_lt l (o + 1) (by omega)
  obtain ⟨x2, h2⟩ := exists_getElem?_of_lt l (o + 2) (by omega)
  exact ⟨x0, x1, x2, h0, h1, h2⟩

/-- C13: when `result` contains `[o, o+3)`, `DiagonalAdd(result, c)` returns with
`result[o+i] = old result[o+i] + c * m` for `i = 0, 1, 2`, every other index of `result`
and its length unchanged. -/
theorem DiagonalAdd_value (s : Frame) (c_a : Double)
    (hr : s.self.offset + 3 ≤ s.result.length) :
    (DiagonalAdd s c_a).fault = none ∧
    (∀ i, i < 3 → ∀ r, s.result[s.self.offset + i]? = some r →
      (DiagonalAdd s c_a).state.result[s.self.offset + i]? = some (r + c_a * s.self.mass)) ∧
    (∀ i, (i < s.self.offset ∨ s.self.offset + 3 ≤ i) →
      (DiagonalAdd s c_a).state.result[i]? = s.result[i]?) ∧
    (DiagonalAdd s c_a).state.result.length = s.result.length := by
  obtain ⟨r0, r1, r2, h0, h1, h2⟩ := slice_of_le s.result s.self.offset hr
  rw [DiagonalAdd_closed s c_a r0 r1 r2 h0 h1 h2]
  have hlt0 : s.self.offset < s.result.length := by omega
  have hlt1 : s.self.offset + 1 < s.result.length := by omega
  have hlt2 : s.self.offset + 2 < s.result.length := by omega
  refine ⟨rfl, ?_, ?_, by simp⟩
  · intro i hi r hri
    have hcases : i = 0 ∨ i = 1 ∨ i = 2 := by omega
    rcases hcases with rfl | rfl | rfl
    · rw [Nat.add_zero] at hri
      rw [h0] at hri
      cases hri
      simp [List.getElem?_set, hlt0]
    · rw [h1] at hri
      cases hri
      simp [List.getElem?_set, hlt1]
    · rw [h2] at hri
      cases hri
      simp [List.getElem?_set, hlt2]
  · intro i hi
    have e0 : s.self.offset ≠ i := by omega
    have e1 : s.self.offset + 1 ≠ i := by omega
    have e2 : s.self.offset + 2 ≠ i := by omega
    simp [List.getElem?_set, e0, e1, e2]

/-- C13 at the scenario (mass 2, offset 10, scale 3): index 11 becomes 6, index 9 stays 0. -/
theorem DiagonalAdd_value_witness :
    (DiagonalAdd scenarioFrame 3).fault = none ∧
    (DiagonalAdd scenarioFrame 3).state.result[11]? = some 6 ∧
    (DiagonalAdd scenarioFrame 3).state.result[9]? = some 0 := by
  have h := DiagonalAdd_value scenarioFrame 3 (by decide)
  have e : (0 : Double) + 3 * scenarioFrame.self.mass = 6 := by
    simp [scenarioFrame, scenarioBlock]
    norm_num
  exact ⟨h.1, (h.2.1 1 (by decide) 0 rfl).trans (congrArg some e),
    (h.2.2.1 9 (Or.inl (by decide))).trans rfl⟩

/-! ## C14: the order of the blocks does not matter -/

/-- Writing the three cells from `p` and the three cells from `q` commutes when the two
ranges are disjoint. -/
theorem set_slices_comm (l : List Double) (p q : Nat) (hd : p + 3 ≤ q ∨ q + 3 ≤ p)
    (x0 x1 x2 y0 y1 y2 : Double) :
    List.set (List.set (List.set (List.set (List.set (List.set l p x0) (p + 1) x1) (p + 2) x2)
      q y0) (q + 1) y1) (q + 2) y2 =
    List.set (List.set (List.set (List.set (List.set (List.set l q y0) (q + 1) y1) (q + 2) y2)
      p x0) (p + 1) x1) (p + 2) x2 := by
  apply List.ext_getElem?
  intro n
  simp only [List.getElem?_set, List.length_set]
  split_ifs <;> first | rfl | omega

/-- Writing three cells from `p` leaves the cells of a disjoint range from `q` as they were. -/
theorem getElem?_set_slice (l : List Double) (p q i : Nat) (hd : p + 3 ≤ q ∨ q + 3 ≤ p)
    (hi : i < 3) (x0 x1 x2 : Double) :
    (List.set (List.set (List.set l p x0) (p + 1) x1) (p + 2) x2)[q + i]? = l[q + i]? := by
  have e0 : p ≠ q + i := by omega
  have e1 : p + 1 ≠ q + i := by omega
  have e2 : p + 2 ≠ q + i := by omega
  simp [List.getElem?_set, e0, e1, e2]

/-- C14: for two blocks `A`, `B` with disjoint ranges `[offset, offset+3)`, any scales, and
global vectors that contain both ranges, `MultiplyAndAdd` for `A` then `B` and for `B`
then `A` all return and leave the same `result`; likewise `DiagonalAdd`. -/
theorem blocks_commute (A B : ChVariablesNode) (cA cB : Double) (result vect : List Double)
    (hdis : A.offset + 3 ≤ B.offset ∨ B.offset + 3 ≤ A.offset)
    (hAr : A.offset + 3 ≤ result.length) (hAv : A.offset + 3 ≤ vect.length)
    (hBr : B.offset + 3 ≤ result.length) (hBv : B.offset + 3 ≤ vect.length) :
    ((MultiplyAndAdd ⟨A, result, vect⟩ cA).fault = none ∧
      (MultiplyAndAdd ⟨B, result, vect⟩ cB).fault = none ∧
      (MultiplyAndAdd ⟨B, (MultiplyAndAdd ⟨A, result, vect⟩ cA).state.result, vect⟩ cB).fault
        = none ∧
      (MultiplyAndAdd ⟨A, (MultiplyAndAdd ⟨B, result, vect⟩ cB).state.result, vect⟩ cA).fault
        = none ∧
      (MultiplyAndAdd ⟨B, (MultiplyAndAdd ⟨A, result, vect⟩ cA).state.result, vect⟩
          cB).state.result =
        (MultiplyAndAdd ⟨A, (MultiplyAndAdd ⟨B, result, vect⟩ cB).state.result, vect⟩
          cA).state.result) ∧
    ((DiagonalAdd ⟨A, result, vect⟩ cA).fault = none ∧
      (DiagonalAdd ⟨B, result, vect⟩ cB).fault = none ∧
      (DiagonalAdd ⟨B, (DiagonalAdd ⟨A, result, vect⟩ cA).state.result, vect⟩ cB).fault
        = none ∧
      (DiagonalAdd ⟨A, (DiagonalAdd ⟨B, result, vect⟩ cB).state.result, vect⟩ cA).fault
        = none ∧
      (DiagonalAdd ⟨B, (DiagonalAdd ⟨A, result, vect⟩ cA).state.result, vect⟩ cB).state.result =
        (DiagonalAdd ⟨A, (DiagonalAdd ⟨B, result, vect⟩ cB).state.result, vect⟩
          cA).state.result) := by
  obtain ⟨a0, a1, a2, ha0, ha1, ha2⟩ := slice_of_le result A.offset hAr
  obtain ⟨b0, b1, b2, hb0, hb1, hb2⟩ := slice_of_le result B.offset hBr
  obtain ⟨u0, u1, u2, hu0, hu1, hu2⟩ := slice_of_le vect A.offset hAv
  obtain ⟨w0, w1, w2, hw0, hw1, hw2⟩ := slice_of_le vect B.offset hBv
  have hdis2 : B.offset + 3 ≤ A.offset ∨ A.offset + 3 ≤ B.offset := hdis.symm
  constructor
  · have eA := MultiplyAndAdd_closed ⟨A, result, vect⟩ cA a0 a1 a2 u0 u1 u2 ha0 ha1 ha2
      hu0 hu1 hu2
    have eB := MultiplyAndAdd_closed ⟨B, result, vect⟩ cB b0 b1 b2 w0 w1 w2 hb0 hb1 hb2
      hw0 hw1 hw2
    dsimp only at eA eB
    rw [eA, eB]
    simp only [Outcome.ok_state, Outcome.ok_fault]
    have eAB := MultiplyAndAdd_closed
      ⟨B, List.set (List.set (List.set result A.offset (a0 + cA * A.mass * u0))
        (A.offset + 1) (a1 + cA * A.mass * u1)) (A.offset + 2) (a2 + cA * A.mass * u2), vect⟩
      cB b0 b1 b2 w0 w1 w2
      ((getElem?_set_slice result A.offset B.offset 0 hdis (by decide) _ _ _).trans hb0)
      ((getElem?_set_slice result A.offset B.offset 1 hdis (by decide) _ _ _).trans hb1)
      ((getElem?_set_slice result A.offset B.offset 2 hdis (by decide) _ _ _).trans hb2)
      hw0 hw1 hw2
    have eBA := MultiplyAndAdd_closed
      ⟨A, List.set (List.set (List.set result B.offset (b0 + cB * B.mass * w0))
        (B.offset + 1) (b1 + cB * B.mass * w1)) (B.offset + 2) (b2 + cB * B.mass * w2), vect⟩
      cA a0 a1 a2 u0 u1 u2
      ((getElem?_set_slice result B.offset A.offset 0 hdis2 (by decide) _ _ _).trans ha0)
      ((getElem?_set_slice result B.offset A.offset 1 hdis2 (by decide) _ _ _).trans ha1)
      ((getElem?_set_slice result B.offset A.offset 2 hdis2 (by decide) _ _ _).trans ha2)
      hu0 hu1 hu2
    dsimp only at eAB eBA
    rw [eAB, eBA]
    refine ⟨trivial, trivial, rfl, rfl, ?_⟩
    exact set_slices_comm result A.offset B.offset hdis _ _ _ _ _ _
  · have eA := DiagonalAdd_closed ⟨A, result, vect⟩ cA a0 a1 a2 ha0 ha1 ha2
    have eB := DiagonalAdd_closed ⟨B, result, vect⟩ cB b0 b1 b2 hb0 hb1 hb2
    dsimp only at eA eB
    rw [eA, eB]
    simp only [Outcome.ok_state, Outcome.ok_fault]
    have eAB := DiagonalAdd_closed
      ⟨B, List.set (List.set (List.set result A.offset (a0 + cA * A.mass))
        (A.offset + 1) (a1 + cA * A.mass)) (A.offset + 2) (a2 + cA * A.mass), vect⟩
      cB b0 b1 b2
      ((getElem?_set_slice result A.offset B.offset 0 hdis (by decide) _ _ _).trans hb0)
      ((getElem?_set_slice result A.offset B.offset 1 hdis (by decide) _ _ _).trans hb1)
      ((getElem?_set_slice result A.offset B.offset 2 hdis (by decide) _ _ _).trans hb2)
    have eBA := DiagonalAdd_closed
      ⟨A, List.set (List.set (List.set result B.offset (b0 + cB * B.mass))
        (B.offset + 1) (b1 + cB * B.mass)) (B.offset + 2) (b2 + cB * B.mass), vect⟩
      cA a0 a1 a2
      ((getElem?_set_slice result B.offset A.offset 0 hdis2 (by decide) _ _ _).trans ha0)
      ((getElem?_set_slice result B.offset A.offset 1 hdis2 (by decide) _ _ _).trans ha1)
      ((getElem?_set_slice result B.offset A.offset 2 hdis2 (by decide) _ _ _).trans ha2)
    dsimp only at eAB eBA
    rw [eAB, eBA]
    refine ⟨trivial, trivial, rfl, rfl, ?_⟩
    exact set_slices_comm result A.offset B.offset hdis _ _ _ _ _ _

/-- C14 at the scenario's block (offset 10) and the block of mass 5/2 at offset 4, on the
scenario's vectors, for `MultiplyAndAdd`. -/
theorem blocks_commute_witness :
    (MultiplyAndAdd ⟨heavyBlock,
        (MultiplyAndAdd ⟨scenarioBlock, scenarioFrame.result, scenarioFrame.vect⟩ 3).state.result,
        scenarioFrame.vect⟩ 2).state.result =
      (MultiplyAndAdd ⟨scenarioBlock,
        (MultiplyAndAdd ⟨heavyBlock, scenarioFrame.result, scenarioFrame.vect⟩ 2).state.result,
        scenarioFrame.vect⟩ 3).state.result :=
  (blocks_commute scenarioBlock heavyBlock 3 2 scenarioFrame.result scenarioFrame.vect
    (Or.inr (by decide)) (by decide) (by decide) (by decide) (by decide)).1.2.2.2.2

/-! ## C15: the mass stays positive -/

/-- Whatever the record, `ArchiveIn` ends with the record's mass in the block. -/
theorem ArchiveIn_state_mass (b : ChVariablesNode) (r : ArchiveRecord) :
    (ArchiveIn b r).state.mass = r.mass := by
  unfold ArchiveIn SetNodeMass
  dsimp only
  split_ifs <;> rfl

/-- `SetNodeMass` ends with a positive mass in a block whose mass was positive. -/
theorem SetNodeMass_state_positive (b : ChVariablesNode) (m : Double)
    (hb : Double.lt 0 b.mass = true) : Double.lt 0 (SetNodeMass b m).state.mass = true := by
  unfold SetNodeMass
  split_ifs with h
  · rw [Bool.and_eq_true] at h
    exact h.2
  · exact hb

/-- One call that carries a positive mass keeps the mass of the block positive. -/
theorem applyOp_positive (b : ChVariablesNode) (op : MassOp)
    (hb : Double.lt 0 b.mass = true) (hop : carriesPositiveMass op = true) :
    Double.lt 0 (applyOp b op).mass = true := by
  cases op with
  | setNodeMass m => exact SetNodeMass_state_positive b m hb
  | assignFrom other => exact hop
  | assignSelf => exact hb
  | archiveIn r =>
    show Double.lt 0 (ArchiveIn b r).state.mass = true
    rw [ArchiveIn_state_mass]
    exact hop

/-- A sequence of calls that carry positive masses keeps the mass of the block positive. -/
theorem runOps_positive (ops : List MassOp) (b : ChVariablesNode)
    (hb : Double.lt 0 b.mass = true) (hops : ∀ op ∈ ops, carriesPositiveMass op = true) :
    Double.lt 0 (runOps b ops).mass = true := by
  induction ops generalizing b with
  | nil => exact hb
  | cons op rest ih =>
    have hop : carriesPositiveMass op = true := hops op (List.mem_cons_self _ _)
    have hrest : ∀ x ∈ rest, carriesPositiveMass x = true :=
      fun x hx => hops x (List.mem_cons_of_mem _ hx)
    exact ih (applyOp b op) (applyOp_positive b op hb hop) hrest

/-- The sample sequence carries positive masses only. -/
theorem sampleOps_carry_positive : ∀ op ∈ sampleOps, carriesPositiveMass op = true := by
  intro op hop
  simp only [sampleOps, List.mem_cons, List.mem_singleton, List.not_mem_nil, or_false] at hop
  rcases hop with rfl | rfl | rfl | rfl | rfl
  · simp [carriesPositiveMass, heavyBlock, Double.lt]
  · rfl
  · rfl
  · simp [carriesPositiveMass, ArchiveOut, heavyBlock, Double.lt]
  · rfl

/-- C15, as amended: from a freshly constructed block (mass 1), after any sequence of
`SetNodeMass` calls with any argument, assignments from blocks of mass `> 0`,
self-assignments and `ArchiveIn` calls of records whose mass is `> 0`, whether the calls
return or fail, the mass of the block is `> 0`. -/
theorem mass_positive_preserved (offset : Nat) (ops : List MassOp)
    (hops : ∀ op ∈ ops, carriesPositiveMass op = true) :
    Double.lt 0 (runOps (ChVariablesNode.new offset) ops).mass = true :=
  runOps_positive ops (ChVariablesNode.new offset)
    (by simp [ChVariablesNode.new, Double.lt]) hops

/-- C15, as amended, at the sample sequence. -/
theorem mass_positive_preserved_witness :
    Double.lt 0 (runOps (ChVariablesNode.new 0) sampleOps).mass = true :=
  mass_positive_preserved 0 sampleOps sampleOps_carry_positive

/-- C15 as stated fails: on a freshly constructed block, the one call `ArchiveIn` of the
record of mass zero fails with InvalidParameter and leaves the mass 0, which is not `> 0`. -/
theorem failed_ArchiveIn_breaks_positivity :
    Double.lt 0 (ChVariablesNode.new 0).mass = true ∧
    (ArchiveIn (ChVariablesNode.new 0) zeroMassRecord).fault = some Fault.InvalidParameter ∧
    (runOps (ChVariablesNode.new 0) [MassOp.archiveIn zeroMassRecord]).mass = 0 ∧
    Double.lt 0 (runOps (ChVariablesNode.new 0) [MassOp.archiveIn zeroMassRecord]).mass
      = false := by
  have hrun : (runOps (ChVariablesNode.new 0) [MassOp.archiveIn zeroMassRecord]).mass = 0 :=
    ArchiveIn_state_mass (ChVariablesNode.new 0) zeroMassRecord
  refine ⟨by simp [ChVariablesNode.new, Double.lt], ?_, hrun, ?_⟩
  · rw [ArchiveIn_of_invalid _ _ zeroMassRecord_invalid]
    rfl
  · rw [hrun]
    simp [Double.lt]

/-! ## C16: copy assignment -/

/-- Assignment between two distinct live blocks writes the copy at `this` and nothing else. -/
theorem operatorAssign_of_ne (objects : Objects) (a b : Nat) (va vb : ChVariablesNode)
    (ha : objects[a]? = some va) (hb : objects[b]? = some vb) (hne : a ≠ b) :
    operatorAssign objects a b = objects.set a (copyFrom va vb) := by
  unfold operatorAssign
  rw [if_neg (Ne.symm hne), ha, hb]

/-- C16: for live blocks at addresses `a` and `b`: self-assignment leaves every block as it
was; and after `a = b` with `a`, `b` distinct, the block at `a` has the mass and the user data
of `b`, the block at `b` and every block other than `a` are unchanged, and with one and the
same offset every product operator gives on `a` what it gives on `b`. -/
theorem operatorAssign_value_copy (objects : Objects) (a b : Nat) (va vb : ChVariablesNode)
    (ha : objects[a]? = some va) (hb : objects[b]? = some vb) :
    operatorAssign objects a a = objects ∧
    (a ≠ b → ∃ na, (operatorAssign objects a b)[a]? = some na ∧
      na.mass = vb.mass ∧ na.user_data = vb.user_data ∧
      (operatorAssign objects a b)[b]? = some vb ∧
      (∀ k, k ≠ a → (operatorAssign objects a b)[k]? = objects[k]?) ∧
      (operatorAssign objects a b).length = objects.length ∧
      ∀ (o : Nat) (result vect : List Double) (c : Double) (storage : ChSparseMatrix)
        (r q : Nat),
        (Compute_invMb_v ⟨{ na with offset := o }, result, vect⟩).state.result =
          (Compute_invMb_v ⟨{ vb with offset := o }, result, vect⟩).state.result ∧
        (Compute_inc_invMb_v ⟨{ na with offset := o }, result, vect⟩).state.result =
          (Compute_inc_invMb_v ⟨{ vb with offset := o }, result, vect⟩).state.result ∧
        (Compute_inc_Mb_v ⟨{ na with offset := o }, result, vect⟩).state.result =
          (Compute_inc_Mb_v ⟨{ vb with offset := o }, result, vect⟩).state.result ∧
        (MultiplyAndAdd ⟨{ na with offset := o }, result, vect⟩ c).state.result =
          (MultiplyAndAdd ⟨{ vb with offset := o }, result, vect⟩ c).state.result ∧
        (DiagonalAdd ⟨{ na with offset := o }, result, vect⟩ c).state.result =
          (DiagonalAdd ⟨{ vb with offset := o }, result, vect⟩ c).state.result ∧
        (Compute_invMb_v ⟨{ na with offset := o }, result, vect⟩).fault =
          (Compute_invMb_v ⟨{ vb with offset := o }, result, vect⟩).fault ∧
        (Compute_inc_invMb_v ⟨{ na with offset := o }, result, vect⟩).fault =
          (Compute_inc_invMb_v ⟨{ vb with offset := o }, result, vect⟩).fault ∧
        (Compute_inc_Mb_v ⟨{ na with offset := o }, result, vect⟩).fault =
          (Compute_inc_Mb_v ⟨{ vb with offset := o }, result, vect⟩).fault ∧
        (MultiplyAndAdd ⟨{ na with offset := o }, result, vect⟩ c).fault =
          (MultiplyAndAdd ⟨{ vb with offset := o }, result, vect⟩ c).fault ∧
        (DiagonalAdd ⟨{ na with offset := o }, result, vect⟩ c).fault =
          (DiagonalAdd ⟨{ vb with offset := o }, result, vect⟩ c).fault ∧
        PasteMassInto { na with offset := o } storage r q c =
          PasteMassInto { vb with offset := o } storage r q c) := by
  constructor
  · unfold operatorAssign
    rw [if_pos rfl]
  · intro hne
    have hlt : a < objects.length := by
      by_contra hge
      rw [List.getElem?_eq_none (Nat.le_of_not_lt hge)] at ha
      cases ha
    rw [operatorAssign_of_ne objects a b va vb ha hb hne]
    refine ⟨copyFrom va vb, ?_, rfl, rfl, ?_, ?_, by simp, ?_⟩
    · simp [List.getElem?_set, hlt]
    · rw [List.getElem?_set_ne hne]
      exact hb
    · intro k hk
      rw [List.getElem?_set_ne (Ne.symm hk)]
    · intro o result vect c storage r q
      have e : ({ copyFrom va vb with offset := o } : ChVariablesNode) =
          { vb with offset := o } := rfl
      rw [e]
      exact ⟨rfl, rfl, rfl, rfl, rfl, rfl, rfl, rfl, rfl, rfl, rfl⟩

/-- C16 at the scenario's block (address 0) and the block of mass 5/2 (address 1):
after `a = b` the block at 0 has mass 5/2 and handle 7, and the block at 1 is as before. -/
theorem operatorAssign_value_copy_witness :
    operatorAssign [scenarioBlock, heavyBlock] 0 0 = [scenarioBlock, heavyBlock] ∧
    ∃ na, (operatorAssign [scenarioBlock, heavyBlock] 0 1)[0]? = some na ∧
      na.mass = Double.fin (5 / 2) ∧ na.user_data = some 7 ∧
      (operatorAssign [scenarioBlock, heavyBlock] 0 1)[1]? = some heavyBlock := by
  have h := operatorAssign_value_copy [scenarioBlock, heavyBlock] 0 1 scenarioBlock heavyBlock
    rfl rfl
  obtain ⟨na, h0, hm, hu, h1, _⟩ := h.2 (by decide)
  exact ⟨h.1, na, h0, hm, hu, h1⟩

/-! ## C17: the freshly constructed block -/

/-- Dividing by the mass 1 and multiplying gives back every double. -/
theorem Double.one_div_one_mul (x : Double) : (1 : Double) / 1 * x = x := by
  have h1 : (1 : Double) / 1 = Double.fin 1 := by
    have h := Double.fin_div_fin 1 1 one_ne_zero
    rw [div_one] at h
    simpa using h
  rw [h1]
  cases x with
  | fin q =>
    rw [Double.fin_mul_fin, one_mul]
  | pinf => exact Double.fin_mul_pinf 1 one_pos
  | ninf => exact Double.fin_mul_ninf 1 one_pos
  | nan => rfl

/-- C17: a freshly constructed block has `GetDOF() = 3`, mass 1 and no user data, and on
vectors of length 3 its `Compute_invMb_v` returns with `result` equal to `vect`. -/
theorem fresh_block (offset : Nat) (result vect : List Double) (hr : result.length = 3)
    (hv : vect.length = 3) :
    GetDOF (ChVariablesNode.new offset) = 3 ∧
    GetMass (ChVariablesNode.new offset) = 1 ∧
    (ChVariablesNode.new offset).user_data = none ∧
    (Compute_invMb_v ⟨ChVariablesNode.new offset, result, vect⟩).fault = none ∧
    (Compute_invMb_v ⟨ChVariablesNode.new offset, result, vect⟩).state.result = vect := by
  obtain ⟨r0, r1, r2, rfl⟩ := List.length_eq_three.mp hr
  obtain ⟨v0, v1, v2, rfl⟩ := List.length_eq_three.mp hv
  rw [Compute_invMb_v_closed]
  refine ⟨rfl, rfl, rfl, rfl, ?_⟩
  show [(1 : Double) / 1 * v0, (1 : Double) / 1 * v1, (1 : Double) / 1 * v2] = [v0, v1, v2]
  rw [Double.one_div_one_mul, Double.one_div_one_mul, Double.one_div_one_mul]

/-- C17 at `vect = [1, 2, 3]` over a `result` that held `[7, 8, 9]`. -/
theorem fresh_block_witness :
    GetDOF (ChVariablesNode.new 0) = 3 ∧
    GetMass (ChVariablesNode.new 0) = 1 ∧
    (ChVariablesNode.new 0).user_data = none ∧
    (Compute_invMb_v ⟨ChVariablesNode.new 0, [7, 8, 9], [1, 2, 3]⟩).fault = none ∧
    (Compute_invMb_v ⟨ChVariablesNode.new 0, [7, 8, 9], [1, 2, 3]⟩).state.result
      = [1, 2, 3] :=
  fresh_block 0 [7, 8, 9] [1, 2, 3] rfl rfl

/-! ## C18: only the block's slice is read -/

/-- One statement `result(o+k) += c * vect(o+k)` run on two frames that agree on the slice
`[o, o+3)` of `result` and of `vect`: the same fault, and frames that agree again. -/
theorem incrScaled_agree (o k : Nat) (hk : k < 3) (c : Double) (s1 s2 : Frame)
    (hr : AgreeOnSlice o s1.result s2.result) (hv : AgreeOnSlice o s1.vect s2.vect) :
    (incrScaled (o + k) c (o + k) s1).fault = (incrScaled (o + k) c (o + k) s2).fault ∧
    AgreeOnSlice o (incrScaled (o + k) c (o + k) s1).state.result
      (incrScaled (o + k) c (o + k) s2).state.result ∧
    (incrScaled (o + k) c (o + k) s1).state.vect = s1.vect ∧
    (incrScaled (o + k) c (o + k) s2).state.vect = s2.vect ∧
    (incrScaled (o + k) c (o + k) s1).state.self = s1.self ∧
    (incrScaled (o + k) c (o + k) s2).state.self = s2.self := by
  have hrk := hr k hk
  have hvk := hv k hk
  unfold incrScaled
  rw [← hrk, ← hvk]
  cases hv1 : s1.vect[o + k]? with
  | none => exact ⟨rfl, hr, rfl, rfl, rfl, rfl⟩
  | some v =>
    cases hr1 : s1.result[o + k]? with
    | none => exact ⟨rfl, hr, rfl, rfl, rfl, rfl⟩
    | some r =>
      refine ⟨rfl, ?_, rfl, rfl, rfl, rfl⟩
      intro i hi
      simp only [Outcome.ok_state]
      by_cases hik : o + k = o + i
      · have h1 : o + k < s1.result.length := by
          by_contra hge
          rw [List.getElem?_eq_none (Nat.le_of_not_lt hge)] at hr1
          cases hr1
        have h2 : o + k < s2.result.length := by
          by_contra hge
          rw [hrk, List.getElem?_eq_none (Nat.le_of_not_lt hge)] at hr1
          cases hr1
        rw [← hik, List.getElem?_set_self h1, List.getElem?_set_self h2]
      · rw [List.getElem?_set_ne hik, List.getElem?_set_ne hik]
        exact hr i hi

/-- Two outcomes with the same fault stay so after one more statement that respects it. -/
theorem andThen_agree (P : Frame → Frame → Prop) (o1 o2 : Outcome Frame)
    (k1 k2 : Frame → Outcome Frame) (hf : o1.fault = o2.fault) (hP : P o1.state o2.state)
    (hk : ∀ s1 s2, P s1 s2 → (k1 s1).fault = (k2 s2).fault ∧ P (k1 s1).state (k2 s2).state) :
    (o1.andThen k1).fault = (o2.andThen k2).fault ∧
    P (o1.andThen k1).state (o2.andThen k2).state := by
  obtain ⟨st1, f1⟩ := o1
  obtain ⟨st2, f2⟩ := o2
  dsimp only at hf hP
  subst hf
  cases f1 with
  | none => exact hk st1 st2 hP
  | some e => exact ⟨rfl, hP⟩

/-- C18: for a fixed block and scale, two runs of `MultiplyAndAdd` whose `vect` agree on
`[offset, offset+3)` and whose `result` agree on `[offset, offset+3)` end with the same
fault (or both return) and with `result` vectors that agree on `[offset, offset+3)`,
whatever the vectors hold, and however long they are, outside the slice. -/
theorem MultiplyAndAdd_noninterference (b : ChVariablesNode) (c_a : Double)
    (result1 result2 vect1 vect2 : List Double)
    (hr : AgreeOnSlice b.offset result1 result2) (hv : AgreeOnSlice b.offset vect1 vect2) :
    AgreeOnSlice b.offset (MultiplyAndAdd ⟨b, result1, vect1⟩ c_a).state.result
      (MultiplyAndAdd ⟨b, result2, vect2⟩ c_a).state.result ∧
    (MultiplyAndAdd ⟨b, result1, vect1⟩ c_a).fault =
      (MultiplyAndAdd ⟨b, result2, vect2⟩ c_a).fault := by
  have step : ∀ k, k < 3 → ∀ s1 s2 : Frame,
      (s1.self = b ∧ s2.self = b ∧ AgreeOnSlice b.offset s1.result s2.result ∧
        AgreeOnSlice b.offset s1.vect s2.vect) →
      (incrScaled (s1.self.offset + k) (c_a * s1.self.mass) (s1.self.offset + k) s1).fault =
        (incrScaled (s2.self.offset + k) (c_a * s2.self.mass) (s2.self.offset + k) s2).fault ∧
      ((incrScaled (s1.self.offset + k) (c_a * s1.self.mass) (s1.self.offset + k) s1).state.self
          = b ∧
        (incrScaled (s2.self.offset + k) (c_a * s2.self.mass) (s2.self.offset + k)
          s2).state.self = b ∧
        AgreeOnSlice b.offset
          (incrScaled (s1.self.offset + k) (c_a * s1.self.mass) (s1.self.offset + k)
            s1).state.result
          (incrScaled (s2.self.offset + k) (c_a * s2.self.mass) (s2.self.offset + k)
            s2).state.result ∧
        AgreeOnSlice b.offset
          (incrScaled (s1.self.offset + k) (c_a * s1.self.mass) (s1.self.offset + k)
            s1).state.vect
          (incrScaled (s2.self.offset + k) (c_a * s2.self.mass) (s2.self.offset + k)
            s2).state.vect) := by
    intro k hk s1 s2 h
    obtain ⟨h1, h2, hres, hvec⟩ := h
    rw [h1, h2]
    obtain ⟨g1, g2, g3, g4, g5, g6⟩ :=
      incrScaled_agree b.offset k hk (c_a * b.mass) s1 s2 hres hvec
    refine ⟨g1, g5.trans h1, g6.trans h2, g2, ?_⟩
    rw [g3, g4]
    exact hvec
  have h0 := step 0 (by decide) ⟨b, result1, vect1⟩ ⟨b, result2, vect2⟩ ⟨rfl, rfl, hr, hv⟩
  have h01 := andThen_agree
    (fun s1 s2 => s1.self = b ∧ s2.self = b ∧ AgreeOnSlice b.offset s1.result s2.result ∧
      AgreeOnSlice b.offset s1.vect s2.vect) _ _
    (fun s => incrScaled (s.self.offset + 1) (c_a * s.self.mass) (s.self.offset + 1) s)
    (fun s => incrScaled (s.self.offset + 1) (c_a * s.self.mass) (s.self.offset + 1) s)
    h0.1 h0.2 (step 1 (by decide))
  have h012 := andThen_agree
    (fun s1 s2 => s1.self = b ∧ s2.self = b ∧ AgreeOnSlice b.offset s1.result s2.result ∧
      AgreeOnSlice b.offset s1.vect s2.vect) _ _
    (fun s => incrScaled (s.self.offset + 2) (c_a * s.self.mass) (s.self.offset + 2) s)
    (fun s => incrScaled (s.self.offset + 2) (c_a * s.self.mass) (s.self.offset + 2) s)
    h01.1 h01.2 (step 2 (by decide))
  exact ⟨h012.2.2.2.1, h012.1⟩

/-- C18 at the scenario's block: the scenario's vectors and vectors with other contents and
another length outside `[10, 13)` give the same slice of `result`. -/
theorem MultiplyAndAdd_noninterference_witness :
    scenarioFrame.result ≠ variantFrame.result ∧ scenarioFrame.vect ≠ variantFrame.vect ∧
    AgreeOnSlice 10 (MultiplyAndAdd scenarioFrame 3).state.result
      (MultiplyAndAdd variantFrame 3).state.result ∧
    (MultiplyAndAdd scenarioFrame 3).fault = (MultiplyAndAdd variantFrame 3).fault := by
  have hr : AgreeOnSlice scenarioBlock.offset scenarioFrame.result variantFrame.result := by
    intro i hi
    have hcases : i = 0 ∨ i = 1 ∨ i = 2 := by omega
    rcases hcases with rfl | rfl | rfl <;> rfl
  have hv : AgreeOnSlice scenarioBlock.offset scenarioFrame.vect variantFrame.vect := by
    intro i hi
    have hcases : i = 0 ∨ i = 1 ∨ i = 2 := by omega
    rcases hcases with rfl | rfl | rfl <;> rfl
  have h := MultiplyAndAdd_noninterference scenarioBlock 3 scenarioFrame.result
    variantFrame.result scenarioFrame.vect variantFrame.vect hr hv
  refine ⟨?_, ?_, h.1, h.2⟩
  · intro hc
    have h0 : scenarioFrame.result[0]? = variantFrame.result[0]? := congrArg (fun l => l[0]?) hc
    have h5 : (0 : Double) ≠ 5 := by simp
    exact h5 (Option.some.inj h0)
  · intro hc
    have hl : scenarioFrame.vect.length = variantFrame.vect.length := congrArg List.length hc
    revert hl
    decide

/-! ## C19: the sparse path and the matrix-free path -/

/-- Adding to zero gives back every double. -/
theorem Double.zero_add_eq (x : Double) : (0 : Double) + x = x := by
  cases x with
  | fin q =>
    rw [Double.ofNat_eq_fin, Double.fin_add_fin]
    simp
  | pinf => rfl
  | ninf => rfl
  | nan => rfl

/-- A sum over the columns `0 .. n-1` that only column `t` contributes to. -/
theorem foldl_range_single (f : Double → Nat → Double) (t n : Nat) (init : Double)
    (hmiss : ∀ acc j, j ≠ t → f acc j = acc) :
    (List.range n).foldl f init = if t < n then f init t else init := by
  induction n with
  | zero => rfl
  | succ n ih =>
    rw [List.range_succ, List.foldl_append, ih]
    simp only [List.foldl_cons, List.foldl_nil]
    by_cases htn : t = n
    · subst htn
      simp
    · rw [hmiss _ n (Ne.symm htn)]
      have hiff : t < n + 1 ↔ t < n := by omega
      simp only [hiff]

/-- The entries pasted by a block at offset `o` are stored on the diagonal of its slice. -/
theorem sinkStored_paste (b : ChVariablesNode) (c : Double) (i j : Nat) :
    sinkStored (PasteMassInto b [] 0 0 c) i j = true ↔
      (i = j ∧ (i = b.offset ∨ i = b.offset + 1 ∨ i = b.offset + 2)) := by
  rw [PasteMassInto_eq, pasteIndex_zero _ 0 (by decide), pasteIndex_zero _ 1 (by decide),
    pasteIndex_zero _ 2 (by decide)]
  simp only [sinkStored, List.nil_append, List.any_cons, List.any_nil, Bool.or_false,
    Bool.or_eq_true, Bool.and_eq_true, beq_iff_eq, Nat.add_zero]
  omega

/-- A diagonal entry of the slice holds the scaled mass. -/
theorem sinkEntry_paste_slice (b : ChVariablesNode) (c : Double) (i : Nat)
    (hi : i = b.offset ∨ i = b.offset + 1 ∨ i = b.offset + 2) :
    sinkEntry (PasteMassInto b [] 0 0 c) i i = c * b.mass := by
  rw [PasteMassInto_eq, pasteIndex_zero _ 0 (by decide), pasteIndex_zero _ 1 (by decide),
    pasteIndex_zero _ 2 (by decide)]
  rcases hi with rfl | rfl | rfl <;>
    simp [sinkEntry]

/-- A diagonal entry outside the slice is zero. -/
theorem sinkEntry_paste_outside (b : ChVariablesNode) (c : Double) (i : Nat)
    (hi : i < b.offset ∨ b.offset + 3 ≤ i) :
    sinkEntry (PasteMassInto b [] 0 0 c) i i = 0 := by
  have e0 : ¬ b.offset = i := by omega
  have e1 : ¬ b.offset + 1 = i := by omega
  have e2 : ¬ b.offset + 2 = i := by omega
  rw [PasteMassInto_eq, pasteIndex_zero _ 0 (by decide), pasteIndex_zero _ 1 (by decide),
    pasteIndex_zero _ 2 (by decide)]
  simp only [sinkEntry, List.nil_append, List.foldl_cons, List.foldl_nil, Nat.add_zero,
    beq_iff_eq, Bool.and_eq_true, e0, e1, e2, and_self, if_false]

/-- A row of the slice times `vect`: the one stored entry times its component of `vect`. -/
theorem sinkRowTimes_paste_slice (b : ChVariablesNode) (c : Double) (n : Nat)
    (vect : List Double) (i : Nat) (v : Double)
    (hi : i = b.offset ∨ i = b.offset + 1 ∨ i = b.offset + 2) (hin : i < n)
    (hv : vect[i]? = some v) :
    sinkRowTimes (PasteMassInto b [] 0 0 c) n vect i = 0 + c * b.mass * v := by
  unfold sinkRowTimes
  rw [foldl_range_single _ i n 0, if_pos hin]
  · have hst : sinkStored (PasteMassInto b [] 0 0 c) i i = true :=
      (sinkStored_paste b c i i).mpr ⟨rfl, hi⟩
    simp only [hst, if_true, hv, sinkEntry_paste_slice b c i hi]
  · intro acc j hj
    have hst : sinkStored (PasteMassInto b [] 0 0 c) i j = false := by
      rw [Bool.eq_false_iff]
      intro h
      exact hj ((sinkStored_paste b c i j).mp h).1.symm
    simp only [hst, Bool.false_eq_true, if_false]

/-- A row outside the slice times `vect`: nothing is stored on it, the sum stays zero. -/
theorem sinkRowTimes_paste_outside (b : ChVariablesNode) (c : Double) (n : Nat)
    (vect : List Double) (i : Nat) (hi : i < b.offset ∨ b.offset + 3 ≤ i) :
    sinkRowTimes (PasteMassInto b [] 0 0 c) n vect i = 0 := by
  unfold sinkRowTimes
  have hnone : ∀ j, sinkStored (PasteMassInto b [] 0 0 c) i j = false := by
    intro j
    rw [Bool.eq_false_iff]
    intro h
    have h2 := ((sinkStored_paste b c i j).mp h).2
    omega
  rw [foldl_range_single _ i n 0]
  · simp only [hnone, Bool.false_eq_true, if_false, ite_self]
  · intro acc j _
    simp only [hnone, Bool.false_eq_true, if_false]

/-- C19: for a block, a scale `c` and a global vector `vect` of size `n ≥ offset + 3`, let
`A` be the `n`-by-`n` matrix that `PasteMassInto(A, 0, 0, c)` leaves in an empty sink.  Then
`A * vect` is the `result` that `MultiplyAndAdd(result, vect, c)` returns on the zero vector,
and the diagonal of `A` is the `result` that `DiagonalAdd(result, c)` returns on the zero
vector. -/
theorem sparse_path_matches_matrix_free (b : ChVariablesNode) (c : Double)
    (vect : List Double) (n : Nat) (hn : b.offset + 3 ≤ n) (hv : vect.length = n) :
    (MultiplyAndAdd ⟨b, List.replicate n 0, vect⟩ c).fault = none ∧
    sinkMulVec (PasteMassInto b [] 0 0 c) n vect =
      (MultiplyAndAdd ⟨b, List.replicate n 0, vect⟩ c).state.result ∧
    (DiagonalAdd ⟨b, List.replicate n 0, vect⟩ c).fault = none ∧
    sinkDiagonal (PasteMassInto b [] 0 0 c) n =
      (DiagonalAdd ⟨b, List.replicate n 0, vect⟩ c).state.result := by
  obtain ⟨v0, v1, v2, hv0, hv1, hv2⟩ := slice_of_le vect b.offset (by omega)
  have hz0 : (List.replicate n (0 : Double))[b.offset]? = some 0 :=
    List.getElem?_replicate_of_lt (by omega)
  have hz1 : (List.replicate n (0 : Double))[b.offset + 1]? = some 0 :=
    List.getElem?_replicate_of_lt (by omega)
  have hz2 : (List.replicate n (0 : Double))[b.offset + 2]? = some 0 :=
    List.getElem?_replicate_of_lt (by omega)
  have eM := MultiplyAndAdd_closed ⟨b, List.replicate n 0, vect⟩ c 0 0 0 v0 v1 v2
    hz0 hz1 hz2 hv0 hv1 hv2
  have eD := DiagonalAdd_closed ⟨b, List.replicate n 0, vect⟩ c 0 0 0 hz0 hz1 hz2
  dsimp only at eM eD
  rw [eM, eD]
  simp only [Outcome.ok_state, Outcome.ok_fault]
  refine ⟨trivial, ?_, trivial, ?_⟩
  · apply List.ext_getElem?
    intro k
    unfold sinkMulVec
    rw [List.getElem?_map]
    by_cases hk : k < n
    · rw [List.getElem?_range hk, Option.map_some']
      by_cases h0 : k = b.offset
      · subst h0
        rw [sinkRowTimes_paste_slice b c n vect b.offset v0 (Or.inl rfl) hk hv0]
        simp [List.getElem?_set, hk]
      · by_cases h1 : k = b.offset + 1
        · subst h1
          rw [sinkRowTimes_paste_slice b c n vect (b.offset + 1) v1 (Or.inr (Or.inl rfl)) hk
            hv1]
          simp [List.getElem?_set, hk]
        · by_cases h2 : k = b.offset + 2
          · subst h2
            rw [sinkRowTimes_paste_slice b c n vect (b.offset + 2) v2 (Or.inr (Or.inr rfl))
              hk hv2]
            simp [List.getElem?_set, hk]
          · rw [sinkRowTimes_paste_outside b c n vect k (by omega)]
            rw [List.getElem?_set_ne (Ne.symm h2), List.getElem?_set_ne (Ne.symm h1),
              List.getElem?_set_ne (Ne.symm h0), List.getElem?_replicate_of_lt hk]
    · have hge : n ≤ k := Nat.le_of_not_lt hk
      rw [List.getElem?_eq_none (by simpa using hge), Option.map_none']
      symm
      apply List.getElem?_eq_none
      simpa using hge
  · apply List.ext_getElem?
    intro k
    unfold sinkDiagonal
    rw [List.getElem?_map]
    by_cases hk : k < n
    · rw [List.getElem?_range hk, Option.map_some']
      by_cases h0 : k = b.offset
      · subst h0
        rw [sinkEntry_paste_slice b c b.offset (Or.inl rfl)]
        rw [List.getElem?_set_ne (by omega), List.getElem?_set_ne (by omega),
          List.getElem?_set_self (by simpa using hk), Double.zero_add_eq]
      · by_cases h1 : k = b.offset + 1
        · subst h1
          rw [sinkEntry_paste_slice b c (b.offset + 1) (Or.inr (Or.inl rfl))]
          rw [List.getElem?_set_ne (by omega), List.getElem?_set_self (by simpa using hk),
            Double.zero_add_eq]
        · by_cases h2 : k = b.offset + 2
          · subst h2
            rw [sinkEntry_paste_slice b c (b.offset + 2) (Or.inr (Or.inr rfl))]
            rw [List.getElem?_set_self (by simpa using hk), Double.zero_add_eq]
          · rw [sinkEntry_paste_outside b c k (by omega)]
            rw [List.getElem?_set_ne (Ne.symm h2), List.getElem?_set_ne (Ne.symm h1),
              List.getElem?_set_ne (Ne.symm h0), List.getElem?_replicate_of_lt hk]
    · have hge : n ≤ k := Nat.le_of_not_lt hk
      rw [List.getElem?_eq_none (by simpa using hge), Option.map_none']
      symm
      apply List.getElem?_eq_none
      simpa using hge

/-- C19 at the scenario: block of mass 2 at offset 10, scale 3, the scenario's `vect`, `n = 20`. -/
theorem sparse_path_matches_matrix_free_witness :
    sinkMulVec (PasteMassInto scenarioBlock [] 0 0 3) 20 scenarioFrame.vect =
      (MultiplyAndAdd ⟨scenarioBlock, List.replicate 20 0, scenarioFrame.vect⟩ 3).state.result ∧
    sinkDiagonal (PasteMassInto scenarioBlock [] 0 0 3) 20 =
      (DiagonalAdd ⟨scenarioBlock, List.replicate 20 0, scenarioFrame.vect⟩ 3).state.result := by
  have h := sparse_path_matches_matrix_free scenarioBlock 3 scenarioFrame.vect 20
    (by decide) (by decide)
  exact ⟨h.2.1, h.2.2.2⟩

end chrono
